import Mathlib

/-!
# Record collection with tombstones and a binary file format

A shallow embedding of `collector.h` (binary codec and the abstract collection
`ACollector`) and of the record schema of `main.cpp` (`Exhibit`,
`ItemCollector`), followed by theorems about them.

Modelling conventions.

* A `std::string`, a file and the contents of a stream are lists of octets.
* Unsigned machine numbers are natural numbers; an object of `w` bytes holds its
  value modulo `256 ^ w`.  The widths are those of an LP64 platform:
  `size_t` 8 bytes, `int` and `MetalType` 4 bytes, `uint16_t` 2 bytes.
* The byte order of the host is a parameter (`ByteOrder`).
* `assert` is active: a failed assertion ends the run with `Fault.assertion`.
* A `read` that finds fewer bytes than requested leaves its target indeterminate;
  the run ends there with `Fault.shortRead`.
* `std::vector` is a list; the counter `_removed_count` is a natural number (it is
  incremented once for every flag that is set, so it stays far below `2 ^ 64`).
  Memory allocation always succeeds, and a write to an opened file succeeds.
-/

set_option autoImplicit false

namespace L3

deriving instance DecidableEq for Except

/-! ## Bytes and fixed-width objects -/

/-- One octet. -/
abbrev Byte := Fin 256

/-- Contents of a `std::string`: a sequence of octets, zero octets allowed. -/
abbrev Str := List Byte

/-- Byte order of the host that runs the program. -/
inductive ByteOrder where
  | little
  | big
deriving DecidableEq, Repr

/-- Ways in which a run stops before the function returns. -/
inductive Fault where
  | assertion
  | shortRead
deriving DecidableEq, Repr

/-- Width in bytes of `size_t`. -/
def sizeof_size_t : Nat := 8

/-- Width in bytes of `int` and of the enumeration `MetalType`. -/
def sizeof_int : Nat := 4

/-- Width in bytes of `uint16_t`. -/
def sizeof_uint16_t : Nat := 2

/-- The `w` low-order octets of `n`, least significant first. -/
def toBytesLE : Nat → Nat → List Byte
  | 0, _ => []
  | w + 1, n => ⟨n % 256, Nat.mod_lt n (by decide)⟩ :: toBytesLE w (n / 256)

/-- Value of a sequence of octets, least significant first. -/
def ofBytesLE : List Byte → Nat
  | [] => 0
  | b :: bs => b.val + 256 * ofBytesLE bs

/-- In-memory representation of an unsigned object of `w` bytes holding `n`. -/
def objectBytes (ord : ByteOrder) (w n : Nat) : List Byte :=
  match ord with
  | .little => toBytesLE w n
  | .big => (toBytesLE w n).reverse

/-- Unsigned value of an object given its in-memory representation. -/
def objectValue (ord : ByteOrder) (bs : List Byte) : Nat :=
  match ord with
  | .little => ofBytesLE bs
  | .big => ofBytesLE bs.reverse

/-- Two's complement reading of an unsigned value of `w` bytes. -/
def toSigned (w : Nat) (u : Nat) : Int :=
  if u < 2 ^ (8 * w - 1) then (u : Int) else (u : Int) - 2 ^ (8 * w)

/-- Unsigned value that represents a signed number in `w` bytes. -/
def ofSigned (w : Nat) (x : Int) : Nat :=
  (x % 2 ^ (8 * w)).toNat

/-! ## Streams -/

/-- An input stream: the bytes not yet consumed and whether no error bit is set. -/
structure IStream where
  bytes : List Byte
  good : Bool
deriving DecidableEq, Repr

/-- An output stream: the bytes written so far and whether no error bit is set. -/
structure OStream where
  bytes : List Byte
  good : Bool
deriving DecidableEq, Repr

/-- `std::ifstream ifs(file_name, binary)`: a file that cannot be opened gives a
stream with an error bit set. -/
def openInput (file : Option (List Byte)) : IStream :=
  match file with
  | none => { bytes := [], good := false }
  | some bs => { bytes := bs, good := true }

/-- `std::ofstream ofs(file_name, binary)`: the file is truncated; a file that
cannot be opened gives a stream with an error bit set. -/
def openOutput (canOpen : Bool) : OStream :=
  { bytes := [], good := canOpen }

/-- `is.read(buf, n)`: extracts exactly `n` bytes.  On a stream with an error bit,
or with fewer than `n` bytes left, the buffer is not filled. -/
def IStream.read (n : Nat) (is : IStream) : Except Fault (List Byte × IStream) :=
  if is.good = true ∧ n ≤ is.bytes.length then
    .ok (is.bytes.take n, { is with bytes := is.bytes.drop n })
  else
    .error .shortRead

/-- `os.write(buf, n)`: appends the bytes; no effect on a stream with an error bit. -/
def OStream.write (bs : List Byte) (os : OStream) : OStream :=
  if os.good = true then { os with bytes := os.bytes ++ bs } else os

/-! ## Binary codec (`collector.h`, lines 8-47) -/

/-- `template <typename T> T readNumber(std::istream&)` for an unsigned `T` of
`w` bytes. -/
def readNumber (ord : ByteOrder) (w : Nat) (is : IStream) : Except Fault (Nat × IStream) :=
  match is.read w with
  | .error f => .error f
  | .ok (bs, is1) => .ok (objectValue ord bs, is1)

/-- `std::string readString(std::istream&, size_t max_string_length)`.  The buffer
`b` is turned into a string up to its first zero octet. -/
def readString (ord : ByteOrder) (is : IStream) (max_string_length : Nat) :
    Except Fault (Str × IStream) :=
  match readNumber ord sizeof_uint16_t is with
  | .error f => .error f
  | .ok (len, is1) =>
    if len ≤ max_string_length then
      if 0 < len then
        match is1.read len with
        | .error f => .error f
        | .ok (b, is2) => .ok (b.takeWhile (fun x => x != 0), is2)
      else
        .ok ([], is1)
    else
      .error .assertion

/-- `template <typename T> void writeString(std::ostream&, T i)`: writes the
`w = sizeof(T)` bytes of the object `i`. -/
def writeStringT (ord : ByteOrder) (w : Nat) (os : OStream) (i : Nat) : OStream :=
  os.write (objectBytes ord w i)

/-- `void writeString(std::ostream&, const std::string&)`. -/
def writeString (ord : ByteOrder) (os : OStream) (s : Str) : OStream :=
  let len := s.length % 2 ^ (8 * sizeof_uint16_t)
  let os1 := writeStringT ord sizeof_uint16_t os len
  os1.write (s.take len)

/-! ## The abstract collection (`collector.h`, lines 57-173) -/

/-- State of an `ACollector` whose records have type `α`. -/
structure ACollector (α : Type) where
  _items : List α
  _removed_signs : List Bool
  _removed_count : Nat
deriving DecidableEq, Repr

namespace ACollector

variable {α : Type}

/-- A freshly constructed collector. -/
def empty : ACollector α :=
  { _items := [], _removed_signs := [], _removed_count := 0 }

/-- `bool invariant() const`. -/
def invariant (c : ACollector α) : Bool :=
  c._items.length == c._removed_signs.length && decide (c._removed_count ≤ c._items.length)

/-- `size_t getSize() const`. -/
def getSize (c : ACollector α) : Nat :=
  c._items.length

/-- `getItem(index) const`. -/
def getItem (index : Nat) (c : ACollector α) : Except Fault α :=
  if h : index < c._items.length then .ok (c._items.get ⟨index, h⟩) else .error .assertion

/-- `isRemoved(index) const`. -/
def isRemoved (index : Nat) (c : ACollector α) : Except Fault Bool :=
  if h : index < c._removed_signs.length then
    .ok (c._removed_signs.get ⟨index, h⟩)
  else
    .error .assertion

/-- `void addItem(item)`. -/
def addItem (item : α) (c : ACollector α) : ACollector α :=
  { c with _items := c._items ++ [item], _removed_signs := c._removed_signs ++ [false] }

/-- `void removeItem(index)`: the outcome together with the state of the collector
when the call returns or stops. -/
def removeItem (index : Nat) (c : ACollector α) : Except Fault Unit × ACollector α :=
  if index < c._items.length then
    if h : index < c._removed_signs.length then
      if c._removed_signs.get ⟨index, h⟩ = false then
        (.ok (), { c with _removed_signs := c._removed_signs.set index true,
                          _removed_count := c._removed_count + 1 })
      else
        (.ok (), c)
    else
      (.error .assertion, c)
  else
    (.error .assertion, c)

/-- `void updateItem(index, item)`: the outcome together with the state of the
collector when the call returns or stops. -/
def updateItem (index : Nat) (item : α) (c : ACollector α) : Except Fault Unit × ACollector α :=
  if index < c._items.length then
    (.ok (), { c with _items := c._items.set index item })
  else
    (.error .assertion, c)

/-- `void clean()`. -/
def clean (c : ACollector α) : ACollector α :=
  { c with _items := [], _removed_signs := [] }

/-- The loop of `loadCollection`: `count` times `addItem(read(ifs))`. -/
def loadLoop (read : IStream → Except Fault (α × IStream)) :
    Nat → IStream → ACollector α → Except Fault IStream × ACollector α
  | 0, ifs, c => (.ok ifs, c)
  | count + 1, ifs, c =>
    match read ifs with
    | .error f => (.error f, c)
    | .ok (item, ifs1) => loadLoop read count ifs1 (addItem item c)

/-- `bool loadCollection(file_name)`; `file` is the content of the named file, or
`none` when it cannot be opened; `read` is the virtual record reader.  The call
`_items.reserve(count)` changes the capacity only and has no counterpart here. -/
def loadCollection (ord : ByteOrder) (read : IStream → Except Fault (α × IStream))
    (file : Option (List Byte)) (c : ACollector α) : Except Fault Bool × ACollector α :=
  let ifs := openInput file
  if ifs.good = false then
    (.ok false, c)
  else
    match readNumber ord sizeof_size_t ifs with
    | .error f => (.error f, c)
    | .ok (count, ifs1) =>
      match loadLoop read count ifs1 c with
      | (.error f, c1) => (.error f, c1)
      | (.ok ifs2, c1) =>
        if invariant c1 = true then (.ok ifs2.good, c1) else (.error .assertion, c1)

/-- Body of the loop of `saveCollection` at index `i`: the record is written when its
flag is false.  The loop runs over `i < _items.size()` after `invariant()` was asserted,
so both vectors have an element at `i`. -/
def saveStep (write : α → OStream → Bool × OStream) (c : ACollector α)
    (ofs : OStream) (i : Nat) : OStream :=
  match c._removed_signs.get? i, c._items.get? i with
  | some false, some item => (write item ofs).2
  | _, _ => ofs

/-- `bool saveCollection(file_name) const`: the returned flag and the bytes written
to the file; `canOpen` tells whether the file can be opened for writing and
`write` is the virtual record writer. -/
def saveCollection (ord : ByteOrder) (write : α → OStream → Bool × OStream)
    (canOpen : Bool) (c : ACollector α) : Except Fault (Bool × List Byte) :=
  if invariant c = false then
    .error .assertion
  else
    let ofs := openOutput canOpen
    if ofs.good = false then
      .ok (false, ofs.bytes)
    else if c._items.length < c._removed_count then
      .error .assertion
    else
      let count := c._items.length - c._removed_count
      let ofs1 := writeStringT ord sizeof_size_t ofs count
      let ofs2 := (List.range c._items.length).foldl (saveStep write c) ofs1
      .ok (ofs2.good, ofs2.bytes)

end ACollector

/-! ## The record schema (`main.cpp`, lines 9-101) -/

/-- Bound on the two strings of a record. -/
def MAX_STRING_LENGTH : Nat := 50

/-- Fields of an `Exhibit`; `_metal_type` holds the ordinal of the enumeration
`MetalType` (`RARE` 0, `HEAVY` 1, `LIGHT` 2). -/
structure Exhibit where
  _special_name : Str
  _metal_type : Int
  _currency_name : Str
  _count_of_currency : Int
  _count_of_coins : Int
deriving DecidableEq, Repr

namespace Exhibit

/-- `bool invariant() const`. -/
def invariant (e : Exhibit) : Bool :=
  decide (e._special_name.length ≤ MAX_STRING_LENGTH) && decide (0 ≤ e._metal_type) &&
    decide (e._metal_type ≤ 2) && decide (e._currency_name.length ≤ MAX_STRING_LENGTH) &&
    decide (0 ≤ e._count_of_currency) && decide (0 ≤ e._count_of_coins)

/-- The constructor `Exhibit(special_name, metal_type, currency_name,
count_of_currency, count_of_coins)`, which asserts the invariant. -/
def new (special_name : Str) (metal_type : Int) (currency_name : Str)
    (count_of_currency count_of_coins : Int) : Except Fault Exhibit :=
  let e : Exhibit :=
    { _special_name := special_name, _metal_type := metal_type,
      _currency_name := currency_name, _count_of_currency := count_of_currency,
      _count_of_coins := count_of_coins }
  if e.invariant = true then .ok e else .error .assertion

/-- `bool write(std::ostream&)`. -/
def write (ord : ByteOrder) (e : Exhibit) (os : OStream) : Bool × OStream :=
  let os1 := writeString ord os e._special_name
  let os2 := writeStringT ord sizeof_int os1 (ofSigned sizeof_int e._metal_type)
  let os3 := writeString ord os2 e._currency_name
  let os4 := writeStringT ord sizeof_int os3 (ofSigned sizeof_int e._count_of_currency)
  let os5 := writeStringT ord sizeof_int os4 (ofSigned sizeof_int e._count_of_coins)
  (os5.good, os5)

/-- The three numeric fields are values of a 4-byte signed type. -/
def fitsInt (e : Exhibit) : Prop :=
  (-2 ^ 31 ≤ e._metal_type ∧ e._metal_type < 2 ^ 31) ∧
  (-2 ^ 31 ≤ e._count_of_currency ∧ e._count_of_currency < 2 ^ 31) ∧
  (-2 ^ 31 ≤ e._count_of_coins ∧ e._count_of_coins < 2 ^ 31)

instance (e : Exhibit) : Decidable e.fitsInt := by
  unfold fitsInt; infer_instance

/-- Neither string of the record contains a zero octet. -/
def noZeroByte (e : Exhibit) : Bool :=
  e._special_name.all (fun b => b != 0) && e._currency_name.all (fun b => b != 0)

/-- Bytes that `write` appends to an opened stream for this record. -/
def payload (ord : ByteOrder) (e : Exhibit) : List Byte :=
  (write ord e (openOutput true)).2.bytes

/-- A record that `write` and `ItemCollector.read` carry without loss: it satisfies
the invariant, its numbers are values of `int`, and its strings hold no zero octet. -/
def storable (e : Exhibit) : Prop :=
  e.invariant = true ∧ e.fitsInt ∧ e.noZeroByte = true

instance (e : Exhibit) : Decidable e.storable := by
  unfold storable; infer_instance

end Exhibit

namespace ItemCollector

/-- `ItemCollector::read(std::istream&)`. -/
def read (ord : ByteOrder) (is : IStream) : Except Fault (Exhibit × IStream) :=
  match readString ord is MAX_STRING_LENGTH with
  | .error f => .error f
  | .ok (special_name, is1) =>
    match readNumber ord sizeof_int is1 with
    | .error f => .error f
    | .ok (metal_type, is2) =>
      match readString ord is2 MAX_STRING_LENGTH with
      | .error f => .error f
      | .ok (currency_name, is3) =>
        match readNumber ord sizeof_int is3 with
        | .error f => .error f
        | .ok (count_of_currency, is4) =>
          match readNumber ord sizeof_int is4 with
          | .error f => .error f
          | .ok (count_of_coins, is5) =>
            match Exhibit.new special_name (toSigned sizeof_int metal_type) currency_name
                (toSigned sizeof_int count_of_currency) (toSigned sizeof_int count_of_coins) with
            | .error f => .error f
            | .ok e => .ok (e, is5)

end ItemCollector

/-! ## Sequences of calls -/

/-- A call of one of the mutating operations of the collector. -/
inductive Op (α : Type) where
  | addItem (item : α)
  | removeItem (index : Nat)
  | updateItem (index : Nat) (item : α)
  | clean
  | loadCollection (file : Option (List Byte))
deriving DecidableEq, Repr

namespace Op

variable {α : Type}

/-- Whether the call is one of `addItem`, `removeItem`, `updateItem`. -/
def isEdit : Op α → Bool
  | addItem _ => true
  | removeItem _ => true
  | updateItem _ _ => true
  | clean => false
  | loadCollection _ => false

/-- Outcome of one call and the state of the collector afterwards. -/
def run (ord : ByteOrder) (read : IStream → Except Fault (α × IStream)) :
    Op α → ACollector α → Except Fault Unit × ACollector α
  | addItem item, c => (.ok (), c.addItem item)
  | removeItem index, c => c.removeItem index
  | updateItem index item, c => c.updateItem index item
  | clean, c => (.ok (), c.clean)
  | loadCollection file, c =>
    match c.loadCollection ord read file with
    | (.ok _, c1) => (.ok (), c1)
    | (.error f, c1) => (.error f, c1)

end Op

/-- Runs the calls in order; the run stops at the first call that does not return. -/
def runOps {α : Type} (ord : ByteOrder) (read : IStream → Except Fault (α × IStream)) :
    List (Op α) → ACollector α → Except Fault Unit × ACollector α
  | [], c => (.ok (), c)
  | op :: ops, c =>
    match op.run ord read c with
    | (.ok _, c1) => runOps ord read ops c1
    | (.error f, c1) => (.error f, c1)

/-- The records whose removal flag is false, in index order. -/
def liveItems {α : Type} (c : ACollector α) : List α :=
  ((c._items.zip c._removed_signs).filter (fun p => !p.2)).map Prod.fst

/-- Whether the index of the call, when it has one, is below the size of the collector. -/
def Op.inRange {α : Type} : Op α → ACollector α → Bool
  | .removeItem index, c => decide (index < c.getSize)
  | .updateItem index _, c => decide (index < c.getSize)
  | _, _ => true

/-- Whether every call of the sequence, made in order from `c`, has its index in range. -/
def indicesInRange {α : Type} (ord : ByteOrder) (read : IStream → Except Fault (α × IStream)) :
    List (Op α) → ACollector α → Bool
  | [], _ => true
  | op :: ops, c => op.inRange c && indicesInRange ord read ops (op.run ord read c).2

/-! ## Sample data -/

/-- Sample record `A`. -/
def demoA : Exhibit :=
  { _special_name := [65], _metal_type := 0, _currency_name := [66, 67],
    _count_of_currency := 3, _count_of_coins := 4 }

/-- Sample record `B`. -/
def demoB : Exhibit :=
  { _special_name := [70], _metal_type := 1, _currency_name := [],
    _count_of_currency := 0, _count_of_coins := 0 }

/-- Sample record `C`. -/
def demoC : Exhibit :=
  { _special_name := [], _metal_type := 2, _currency_name := [71],
    _count_of_currency := 7, _count_of_coins := 2147483647 }

/-- Sample record `D`. -/
def demoD : Exhibit :=
  { _special_name := [68, 68], _metal_type := 1, _currency_name := [69],
    _count_of_currency := 1, _count_of_coins := 2 }

/-- The collection after `add A`, `add B`, `add C`, `remove 1`. -/
def demoThree : ACollector Exhibit :=
  { _items := [demoA, demoB, demoC], _removed_signs := [false, true, false],
    _removed_count := 1 }

/-! ## Codec lemmas -/

theorem toBytesLE_length (w n : Nat) : (toBytesLE w n).length = w := by
  induction w generalizing n with
  | zero => rfl
  | succ w ih => simp [toBytesLE, ih]

theorem ofBytesLE_toBytesLE (w n : Nat) : ofBytesLE (toBytesLE w n) = n % 256 ^ w := by
  induction w generalizing n with
  | zero => simp [toBytesLE, ofBytesLE, Nat.mod_one]
  | succ w ih =>
    simp only [toBytesLE, ofBytesLE, ih]
    rw [pow_succ, Nat.mul_comm (256 ^ w) 256, Nat.mod_mul]

theorem objectBytes_length (ord : ByteOrder) (w n : Nat) : (objectBytes ord w n).length = w := by
  cases ord <;> simp [objectBytes, toBytesLE_length]

theorem objectValue_objectBytes (ord : ByteOrder) (w n : Nat) :
    objectValue ord (objectBytes ord w n) = n % 256 ^ w := by
  cases ord <;> simp [objectBytes, objectValue, ofBytesLE_toBytesLE]

theorem IStream.read_append (xs rest : List Byte) :
    IStream.read xs.length { bytes := xs ++ rest, good := true } =
      .ok (xs, { bytes := rest, good := true }) := by
  simp [IStream.read]

theorem readNumber_objectBytes (ord : ByteOrder) (w n : Nat) (rest : List Byte) :
    readNumber ord w { bytes := objectBytes ord w n ++ rest, good := true } =
      .ok (n % 256 ^ w, { bytes := rest, good := true }) := by
  have h := IStream.read_append (objectBytes ord w n) rest
  rw [objectBytes_length] at h
  simp [readNumber, h, objectValue_objectBytes]

theorem writeStringT_good (ord : ByteOrder) (w n : Nat) (out : List Byte) :
    writeStringT ord w { bytes := out, good := true } n =
      { bytes := out ++ objectBytes ord w n, good := true } := by
  simp [writeStringT, OStream.write]

theorem writeString_good (ord : ByteOrder) (out : List Byte) (s : Str) :
    writeString ord { bytes := out, good := true } s =
      { bytes := out ++ (objectBytes ord 2 (s.length % 65536) ++ s.take (s.length % 65536)),
        good := true } := by
  simp [writeString, writeStringT, OStream.write, sizeof_uint16_t]

theorem takeWhile_ne_zero (s : Str) (h : s.all (fun b => b != 0) = true) :
    s.takeWhile (fun x => x != 0) = s := by
  rw [List.takeWhile_eq_self_iff]
  intro b hb
  exact List.all_eq_true.mp h b hb

theorem readString_string (ord : ByteOrder) (s : Str) (m : Nat) (rest : List Byte)
    (hm : s.length ≤ m) (h16 : s.length < 65536) :
    readString ord { bytes := objectBytes ord 2 s.length ++ (s ++ rest), good := true } m =
      .ok (s.takeWhile (fun x => x != 0), { bytes := rest, good := true }) := by
  have hmod : s.length % 256 ^ 2 = s.length := Nat.mod_eq_of_lt (by norm_num; exact h16)
  unfold readString
  rw [sizeof_uint16_t, readNumber_objectBytes, hmod]
  simp only [hm, if_true]
  by_cases h0 : 0 < s.length
  · simp only [h0, if_true, IStream.read_append]
  · have : s = [] := by
      cases s with
      | nil => rfl
      | cons a t => simp at h0
    subst this
    simp

theorem ofSigned_lt (x : Int) : ofSigned sizeof_int x < 256 ^ sizeof_int := by
  unfold ofSigned sizeof_int
  have h1 : (0 : Int) ≤ x % 2 ^ (8 * 4) := Int.emod_nonneg _ (by norm_num)
  have h2 : x % 2 ^ (8 * 4) < 2 ^ (8 * 4) := Int.emod_lt_of_pos _ (by norm_num)
  omega

theorem toSigned_ofSigned (x : Int) (hlo : -2 ^ 31 ≤ x) (hhi : x < 2 ^ 31) :
    toSigned sizeof_int (ofSigned sizeof_int x) = x := by
  unfold toSigned ofSigned sizeof_int
  norm_num
  by_cases hx : 0 ≤ x
  · have : x % 4294967296 = x := Int.emod_eq_of_lt hx (by omega)
    rw [this]
    have h2 : x.toNat < 2147483648 := by omega
    rw [if_pos h2]
    omega
  · have : x % 4294967296 = x + 4294967296 := by omega
    rw [this]
    have h2 : ¬ (x + 4294967296).toNat < 2147483648 := by omega
    rw [if_neg h2]
    omega

theorem Exhibit.write_good (ord : ByteOrder) (e : Exhibit) (out : List Byte) :
    Exhibit.write ord e { bytes := out, good := true } =
      (true, { bytes := out ++ Exhibit.payload ord e, good := true }) := by
  simp [Exhibit.write, Exhibit.payload, openOutput, writeString_good, writeStringT_good,
    List.append_assoc]

theorem Exhibit.payload_eq (ord : ByteOrder) (e : Exhibit) :
    Exhibit.payload ord e =
      objectBytes ord 2 (e._special_name.length % 65536) ++
        (e._special_name.take (e._special_name.length % 65536) ++
        (objectBytes ord 4 (ofSigned 4 e._metal_type) ++
        (objectBytes ord 2 (e._currency_name.length % 65536) ++
        (e._currency_name.take (e._currency_name.length % 65536) ++
        (objectBytes ord 4 (ofSigned 4 e._count_of_currency) ++
        objectBytes ord 4 (ofSigned 4 e._count_of_coins)))))) := by
  simp [Exhibit.write, Exhibit.payload, openOutput, writeString_good, writeStringT_good,
    List.append_assoc, sizeof_int]

theorem ItemCollector.read_payload (ord : ByteOrder) (e : Exhibit) (rest : List Byte)
    (hinv : e.invariant = true) (hfit : e.fitsInt) (hz : e.noZeroByte = true) :
    ItemCollector.read ord { bytes := Exhibit.payload ord e ++ rest, good := true } =
      .ok (e, { bytes := rest, good := true }) := by
  obtain ⟨name, mt, cur, n1, n2⟩ := e
  simp only [Exhibit.invariant, MAX_STRING_LENGTH, Bool.and_eq_true, decide_eq_true_eq] at hinv
  obtain ⟨⟨⟨⟨⟨hn, hm0⟩, hm2⟩, hc⟩, h1⟩, h2⟩ := hinv
  obtain ⟨⟨hmlo, hmhi⟩, ⟨h1lo, h1hi⟩, ⟨h2lo, h2hi⟩⟩ := hfit
  simp only [Exhibit.noZeroByte, Bool.and_eq_true] at hz
  obtain ⟨hzn, hzc⟩ := hz
  simp only at hn hm0 hm2 hc h1 h2 hmlo hmhi h1lo h1hi h2lo h2hi hzn hzc
  have hnmod : name.length % 65536 = name.length := Nat.mod_eq_of_lt (by omega)
  have hcmod : cur.length % 65536 = cur.length := Nat.mod_eq_of_lt (by omega)
  have e4 : ∀ x : Int, ofSigned 4 x % 256 ^ 4 = ofSigned 4 x := fun x =>
    Nat.mod_eq_of_lt (ofSigned_lt x)
  rw [Exhibit.payload_eq]
  simp only [hnmod, hcmod, List.take_length, List.append_assoc]
  unfold ItemCollector.read
  rw [MAX_STRING_LENGTH, readString_string ord name 50 _ hn (by omega), takeWhile_ne_zero name hzn]
  simp only [sizeof_int]
  rw [readNumber_objectBytes, e4]
  simp only []
  rw [readString_string ord cur 50 _ hc (by omega), takeWhile_ne_zero cur hzc]
  simp only []
  rw [readNumber_objectBytes, e4]
  simp only []
  rw [readNumber_objectBytes, e4]
  simp only []
  have t := toSigned_ofSigned
  simp only [sizeof_int] at t
  rw [t mt hmlo hmhi, t n1 h1lo h1hi, t n2 h2lo h2hi]
  simp [Exhibit.new, Exhibit.invariant, MAX_STRING_LENGTH, hn, hm0, hm2, hc, h1, h2]

/-! ## Lemmas on the loops of the collector -/

open ACollector

theorem liveItems_length_add {α : Type} (items : List α) (flags : List Bool)
    (h : items.length = flags.length) :
    (liveItems ⟨items, flags, 0⟩).length + flags.count true = items.length := by
  induction items generalizing flags with
  | nil =>
    cases flags with
    | nil => simp [liveItems]
    | cons f fs => simp at h
  | cons x xs ih =>
    cases flags with
    | nil => simp at h
    | cons f fs =>
      have h1 : xs.length = fs.length := by simpa using h
      have := ih fs h1
      cases f <;> simp [liveItems, List.filter_cons] at this ⊢ <;> omega

theorem saveLoop_take {α : Type} (write : α → OStream → Bool × OStream) (ser : α → List Byte)
    (hw : ∀ x out, (write x { bytes := out, good := true }).2 =
      { bytes := out ++ ser x, good := true })
    (c : ACollector α) (halign : c._items.length = c._removed_signs.length)
    (out : List Byte) (n : Nat) (hn : n ≤ c._items.length) :
    (List.range n).foldl (saveStep write c) { bytes := out, good := true } =
      { bytes := out ++ (liveItems ⟨c._items.take n, c._removed_signs.take n, 0⟩).flatMap ser,
        good := true } := by
  induction n with
  | zero => simp [liveItems]
  | succ n ih =>
    have hn1 : n < c._items.length := hn
    have hn2 : n < c._removed_signs.length := halign ▸ hn1
    rw [List.range_succ, List.foldl_append, ih (by omega)]
    simp only [List.foldl_cons, List.foldl_nil, saveStep]
    rw [List.get?_eq_get hn2, List.get?_eq_get hn1]
    have t1 : c._items.take (n + 1) = c._items.take n ++ [c._items.get ⟨n, hn1⟩] := by
      rw [List.take_succ, List.getElem?_eq_getElem hn1]; rfl
    have t2 : c._removed_signs.take (n + 1) =
        c._removed_signs.take n ++ [c._removed_signs.get ⟨n, hn2⟩] := by
      rw [List.take_succ, List.getElem?_eq_getElem hn2]; rfl
    have hl : (c._items.take n).length = (c._removed_signs.take n).length := by
      simp [List.length_take, halign]
    simp only [liveItems] at ih ⊢
    rw [t1, t2, List.zip_append hl]
    cases hf : c._removed_signs.get ⟨n, hn2⟩ with
    | false => simp [hw, List.filter_append, List.append_assoc]
    | true => simp [List.filter_append]

theorem saveLoop_eq {α : Type} (write : α → OStream → Bool × OStream) (ser : α → List Byte)
    (hw : ∀ x out, (write x { bytes := out, good := true }).2 =
      { bytes := out ++ ser x, good := true })
    (c : ACollector α) (halign : c._items.length = c._removed_signs.length)
    (out : List Byte) :
    (List.range c._items.length).foldl (saveStep write c) { bytes := out, good := true } =
      { bytes := out ++ (liveItems c).flatMap ser, good := true } := by
  rw [saveLoop_take write ser hw c halign out c._items.length (le_refl _)]
  have : c._removed_signs.take c._items.length = c._removed_signs := by
    rw [halign]; exact List.take_length _
  simp [liveItems, this]

theorem saveCollection_eq {α : Type} (ord : ByteOrder) (write : α → OStream → Bool × OStream)
    (ser : α → List Byte)
    (hw : ∀ x out, (write x { bytes := out, good := true }).2 =
      { bytes := out ++ ser x, good := true })
    (c : ACollector α) (halign : c._items.length = c._removed_signs.length)
    (hle : c._removed_count ≤ c._items.length) :
    saveCollection ord write true c =
      .ok (true, objectBytes ord 8 (c._items.length - c._removed_count) ++
        (liveItems c).flatMap ser) := by
  have hinv : invariant c = true := by
    simp only [invariant, Bool.and_eq_true, beq_iff_eq, decide_eq_true_eq]
    exact ⟨halign, hle⟩
  have hlt : ¬ c._items.length < c._removed_count := by omega
  simp only [saveCollection, hinv, openOutput, hlt, writeStringT_good, sizeof_size_t]
  simp [saveLoop_eq write ser hw c halign]

theorem loadLoop_payloads (ord : ByteOrder) (rs : List Exhibit) (rest : List Byte)
    (hrs : ∀ e ∈ rs, e.storable) (c : ACollector Exhibit) :
    loadLoop (ItemCollector.read ord) rs.length
        { bytes := rs.flatMap (Exhibit.payload ord) ++ rest, good := true } c =
      (.ok { bytes := rest, good := true },
        { _items := c._items ++ rs,
          _removed_signs := c._removed_signs ++ List.replicate rs.length false,
          _removed_count := c._removed_count }) := by
  induction rs generalizing c with
  | nil => simp [loadLoop]
  | cons e es ih =>
    obtain ⟨h1, h2, h3⟩ := hrs e (by simp)
    simp only [List.length_cons, loadLoop, List.flatMap_cons, List.append_assoc]
    rw [ItemCollector.read_payload ord e _ h1 h2 h3]
    simp only []
    rw [ih (fun x hx => hrs x (by simp [hx]))]
    simp [addItem, List.replicate_succ]

/-! ## Round trip through a file -/

theorem liveItems_length {α : Type} (c : ACollector α)
    (halign : c._items.length = c._removed_signs.length)
    (hcount : c._removed_count = c._removed_signs.count true) :
    (liveItems c).length = c._items.length - c._removed_count := by
  have h := liveItems_length_add c._items c._removed_signs halign
  have h2 : liveItems (⟨c._items, c._removed_signs, 0⟩ : ACollector α) = liveItems c := rfl
  rw [h2] at h
  omega

theorem loadCollection_payloads (ord : ByteOrder) (rs : List Exhibit)
    (hrs : ∀ e ∈ rs, e.storable) (hlen : rs.length < 2 ^ 64) (c : ACollector Exhibit)
    (halign : c._items.length = c._removed_signs.length)
    (hle : c._removed_count ≤ c._items.length + rs.length) :
    loadCollection ord (ItemCollector.read ord)
        (some (objectBytes ord sizeof_size_t rs.length ++ rs.flatMap (Exhibit.payload ord))) c =
      (.ok true,
        { _items := c._items ++ rs,
          _removed_signs := c._removed_signs ++ List.replicate rs.length false,
          _removed_count := c._removed_count }) := by
  have hmod : rs.length % 256 ^ 8 = rs.length := Nat.mod_eq_of_lt (by norm_num at hlen ⊢; exact hlen)
  have hl := loadLoop_payloads ord rs [] hrs c
  rw [List.append_nil] at hl
  have hinv : invariant (⟨c._items ++ rs,
      c._removed_signs ++ List.replicate rs.length false, c._removed_count⟩ :
        ACollector Exhibit) = true := by
    simp only [invariant, List.length_append, List.length_replicate, Bool.and_eq_true,
      beq_iff_eq, decide_eq_true_eq]
    exact ⟨by omega, hle⟩
  simp only [loadCollection, openInput, sizeof_size_t, Bool.true_eq_false, if_false,
    readNumber_objectBytes, hmod, hl, hinv, if_true]

/-- C1: saving a collection that satisfies the data-model invariants and whose records
satisfy the `Exhibit` invariant with strings free of zero octets, then loading the
written bytes into an empty `ItemCollector`, returns `true` and yields exactly the
live records in their original order, every flag false and `_removed_count` zero. -/
theorem save_load_round_trip (ord : ByteOrder) (c : ACollector Exhibit)
    (halign : c._items.length = c._removed_signs.length)
    (hcount : c._removed_count = c._removed_signs.count true)
    (hsize : c._items.length < 2 ^ 64)
    (hrec : ∀ e ∈ c._items, e.invariant = true ∧ e.fitsInt ∧ e.noZeroByte = true) :
    ∃ bytes : List Byte,
      saveCollection ord (Exhibit.write ord) true c = .ok (true, bytes) ∧
      loadCollection ord (ItemCollector.read ord) (some bytes) ACollector.empty =
        (.ok true,
          { _items := liveItems c,
            _removed_signs := List.replicate (liveItems c).length false,
            _removed_count := 0 }) ∧
      (liveItems c).length = c._items.length - c._removed_count := by
  have hk := liveItems_length c halign hcount
  have hle : c._removed_count ≤ c._items.length := by
    rw [hcount, halign]; exact List.count_le_length _ _
  have hlive : ∀ e ∈ liveItems c, e.storable := by
    intro e he
    simp only [liveItems, List.mem_map, List.mem_filter] at he
    obtain ⟨p, ⟨hp, _⟩, rfl⟩ := he
    exact hrec p.1 (List.of_mem_zip hp).1
  refine ⟨_, saveCollection_eq ord (Exhibit.write ord) (Exhibit.payload ord)
    (fun x out => by rw [Exhibit.write_good]) c halign hle, ?_, hk⟩
  rw [← hk]
  have := loadCollection_payloads ord (liveItems c) hlive (by omega) ACollector.empty rfl
    (by simp [ACollector.empty])
  simpa [ACollector.empty, sizeof_size_t] using this

/-- Witness of C1: add `A`, `B`, `C`, remove index 1, save, reload. -/
theorem save_load_round_trip_witness :
    (runOps .little (ItemCollector.read .little)
        [.addItem demoA, .addItem demoB, .addItem demoC, .removeItem 1] ACollector.empty =
      (.ok (), demoThree)) ∧
    ∃ bytes : List Byte,
      saveCollection .little (Exhibit.write .little) true demoThree = .ok (true, bytes) ∧
      loadCollection .little (ItemCollector.read .little) (some bytes) ACollector.empty =
        (.ok true,
          { _items := [demoA, demoC], _removed_signs := [false, false], _removed_count := 0 }) ∧
      ([demoA, demoC] : List Exhibit).length = 3 - 1 :=
  ⟨rfl, save_load_round_trip .little demoThree rfl rfl (by decide)
    (by decide)⟩

/-! ## Invariants along sequences of calls -/

theorem count_set_true (flags : List Bool) (i : Nat) (h : i < flags.length)
    (hf : flags.get ⟨i, h⟩ = false) :
    (flags.set i true).count true = flags.count true + 1 := by
  induction flags generalizing i with
  | nil => simp at h
  | cons f fs ih =>
    cases i with
    | zero =>
      have hf0 : f = false := hf
      subst hf0
      simp
    | succ j =>
      have hj : j < fs.length := by simpa using h
      have := ih j hj (by simpa using hf)
      cases f <;> simp [List.set_cons_succ, List.count_cons, this]

theorem removeItem_count {α : Type} (c : ACollector α) (i : Nat)
    (halign : c._items.length = c._removed_signs.length)
    (hcount : c._removed_count = c._removed_signs.count true) :
    (c.removeItem i).2._items.length = (c.removeItem i).2._removed_signs.length ∧
    (c.removeItem i).2._removed_count = (c.removeItem i).2._removed_signs.count true := by
  unfold removeItem
  split
  · split
    · rename_i h
      split
      · rename_i hf
        exact ⟨by simpa using halign, by simp [hcount, count_set_true _ i h hf]⟩
      · exact ⟨halign, hcount⟩
    · exact ⟨halign, hcount⟩
  · exact ⟨halign, hcount⟩

theorem edit_run {α : Type} (ord : ByteOrder) (read : IStream → Except Fault (α × IStream))
    (op : Op α) (c : ACollector α) (hedit : op.isEdit = true) (hrange : op.inRange c = true)
    (halign : c._items.length = c._removed_signs.length)
    (hcount : c._removed_count = c._removed_signs.count true) :
    (op.run ord read c).1 = .ok () ∧
    (op.run ord read c).2._items.length = (op.run ord read c).2._removed_signs.length ∧
    (op.run ord read c).2._removed_count = (op.run ord read c).2._removed_signs.count true := by
  cases op with
  | addItem item => simp [Op.run, addItem, halign, hcount, List.count_append]
  | removeItem index =>
    have hi : index < c._items.length := by simpa [Op.inRange, getSize] using hrange
    have hi2 : index < c._removed_signs.length := halign ▸ hi
    refine ⟨?_, removeItem_count c index halign hcount⟩
    simp only [Op.run, removeItem, hi, hi2, if_true, dite_true]
    split <;> rfl
  | updateItem index item =>
    have hi : index < c._items.length := by simpa [Op.inRange, getSize] using hrange
    simp only [Op.run, updateItem, if_pos hi]
    exact ⟨trivial, by simpa using halign, hcount⟩
  | clean => simp [Op.isEdit] at hedit
  | loadCollection file => simp [Op.isEdit] at hedit

theorem edits_from {α : Type} (ord : ByteOrder) (read : IStream → Except Fault (α × IStream))
    (ops : List (Op α)) (c0 : ACollector α)
    (hedit : ∀ op ∈ ops, op.isEdit = true)
    (hrange : indicesInRange ord read ops c0 = true)
    (halign : c0._items.length = c0._removed_signs.length)
    (hcount : c0._removed_count = c0._removed_signs.count true) (k : Nat) :
    ∃ c, runOps ord read (ops.take k) c0 = (.ok (), c) ∧
      c._items.length = c._removed_signs.length ∧
      c._removed_count = c._removed_signs.count true := by
  induction ops generalizing c0 k with
  | nil => exact ⟨c0, by simp [runOps], halign, hcount⟩
  | cons op ops ih =>
    cases k with
    | zero => exact ⟨c0, by simp [runOps], halign, hcount⟩
    | succ k =>
      simp only [indicesInRange, Bool.and_eq_true] at hrange
      obtain ⟨h1, h2, h3⟩ := edit_run ord read op c0 (hedit op (by simp)) hrange.1 halign hcount
      obtain ⟨c, hc, hc2⟩ := ih (op.run ord read c0).2 (fun o ho => hedit o (by simp [ho]))
        hrange.2 h2 h3 k
      refine ⟨c, ?_, hc2⟩
      simp only [List.take_succ_cons, runOps]
      rw [← hc]
      generalize op.run ord read c0 = r at h1 ⊢
      obtain ⟨r1, r2⟩ := r
      simp only at h1
      subst h1
      rfl

/-- C2: along every sequence of `addItem`, `removeItem` and `updateItem` calls with
in-range indices, started on the empty collection, every call returns, and after each
call the numbers of items and of removal flags agree and
`0 ≤ _removed_count ≤` number of items. -/
theorem edits_keep_invariant {α : Type} (ord : ByteOrder)
    (read : IStream → Except Fault (α × IStream)) (ops : List (Op α))
    (hedit : ∀ op ∈ ops, op.isEdit = true)
    (hrange : indicesInRange ord read ops ACollector.empty = true) (k : Nat) :
    ∃ c, runOps ord read (ops.take k) ACollector.empty = (.ok (), c) ∧
      c._items.length = c._removed_signs.length ∧
      0 ≤ c._removed_count ∧ c._removed_count ≤ c._items.length := by
  obtain ⟨c, hc, h1, h2⟩ := edits_from ord read ops ACollector.empty hedit hrange rfl rfl k
  refine ⟨c, hc, h1, Nat.zero_le _, ?_⟩
  rw [h2, h1]
  exact List.count_le_length _ _

/-- Witness of C2: the state after the first three of four calls. -/
theorem edits_keep_invariant_witness :
    (∀ op ∈ ([.addItem demoA, .addItem demoB, .removeItem 1, .updateItem 0 demoD] :
        List (Op Exhibit)), op.isEdit = true) ∧
    indicesInRange .little (ItemCollector.read .little)
      [.addItem demoA, .addItem demoB, .removeItem 1, .updateItem 0 demoD]
      ACollector.empty = true ∧
    ∃ c, runOps .little (ItemCollector.read .little)
        (([.addItem demoA, .addItem demoB, .removeItem 1, .updateItem 0 demoD] :
          List (Op Exhibit)).take 3) ACollector.empty = (.ok (), c) ∧
      c._items.length = c._removed_signs.length ∧
      0 ≤ c._removed_count ∧ c._removed_count ≤ c._items.length :=
  ⟨by decide, by decide, edits_keep_invariant .little (ItemCollector.read .little)
    [.addItem demoA, .addItem demoB, .removeItem 1, .updateItem 0 demoD] (by decide)
    (by decide) 3⟩

/-- C3 (failing input): after `addItem`, `removeItem 0`, `clean` the collection is empty
but `_removed_count` is still 1, although no removal flag is set, so the counter
exceeds the number of items. -/
theorem clean_keeps_removed_count :
    runOps .little (ItemCollector.read .little)
        [.addItem demoA, .removeItem 0, .clean] ACollector.empty =
      (.ok (), { _items := [], _removed_signs := [], _removed_count := 1 }) ∧
    ([] : List Bool).count true = 0 ∧
    (ACollector.invariant ({ _items := [], _removed_signs := [], _removed_count := 1 } :
      ACollector Exhibit)) = false := by
  decide

/-! ## Single operations -/

/-- C4: with `i` below the size, `removeItem i` returns, and a second `removeItem i`
returns and leaves items, flags and `_removed_count` exactly as the first call left
them. -/
theorem removeItem_idempotent {α : Type} (c : ACollector α) (i : Nat)
    (hi : i < c.getSize) (halign : c._items.length = c._removed_signs.length) :
    (c.removeItem i).1 = .ok () ∧
    (c.removeItem i).2.removeItem i = (.ok (), (c.removeItem i).2) ∧
    ((c.removeItem i).2.removeItem i).2._removed_count = (c.removeItem i).2._removed_count := by
  have hi1 : i < c._items.length := hi
  have hi2 : i < c._removed_signs.length := halign ▸ hi1
  have key : (c.removeItem i).1 = .ok () ∧
      (c.removeItem i).2.removeItem i = (.ok (), (c.removeItem i).2) := by
    by_cases hf : c._removed_signs.get ⟨i, hi2⟩ = false
    · have h1 : c.removeItem i = (.ok (), { c with
          _removed_signs := c._removed_signs.set i true,
          _removed_count := c._removed_count + 1 }) := by
        simp only [removeItem, hi1, hi2, hf, if_true, dite_true]
      rw [h1]
      refine ⟨rfl, ?_⟩
      have hi3 : i < (c._removed_signs.set i true).length := by simpa using hi2
      simp only [removeItem, hi1, hi3, if_true, dite_true]
      simp
    · have h1 : c.removeItem i = (.ok (), c) := by
        have hf1 : c._removed_signs.get ⟨i, hi2⟩ = true := by simpa using hf
        simp only [removeItem, hi1, hi2, hf1, if_true, dite_true]
        rfl
      rw [h1]
      exact ⟨rfl, h1⟩
  exact ⟨key.1, key.2, by rw [key.2]⟩

/-- Witness of C4: removing index 1 of a two-record collection twice. -/
theorem removeItem_idempotent_witness :
    (1 < (⟨[demoA, demoB], [false, false], 0⟩ : ACollector Exhibit).getSize) ∧
    ((⟨[demoA, demoB], [false, false], 0⟩ : ACollector Exhibit).removeItem 1).1 = .ok () ∧
    ((⟨[demoA, demoB], [false, false], 0⟩ : ACollector Exhibit).removeItem 1).2.removeItem 1 =
      (.ok (), ((⟨[demoA, demoB], [false, false], 0⟩ : ACollector Exhibit).removeItem 1).2) ∧
    (((⟨[demoA, demoB], [false, false], 0⟩ : ACollector Exhibit).removeItem 1).2.removeItem
        1).2._removed_count =
      ((⟨[demoA, demoB], [false, false], 0⟩ : ACollector Exhibit).removeItem 1).2._removed_count :=
  ⟨by decide, removeItem_idempotent ⟨[demoA, demoB], [false, false], 0⟩ 1 (by decide) rfl⟩

/-! ## String codec -/

/-- C5 (counterexample): the one-byte string holding a zero octet has length at most 50,
yet `readString` applied to the bytes `writeString` produced returns the empty
string. -/
theorem readString_stops_at_zero :
    ([0] : Str).length ≤ 50 ∧
    readString .little
        { bytes := (writeString .little (openOutput true) [0]).bytes, good := true } 50 =
      .ok ([], { bytes := [], good := true }) ∧
    ([] : Str) ≠ [0] := by
  decide

/-- C5 (amended): for every string `s` of length at most 50 that holds no zero octet,
`readString` with bound 50 applied to the bytes written by `writeString s` (followed
by any further bytes) returns `s` and leaves exactly the further bytes. -/
theorem readString_writeString (ord : ByteOrder) (s : Str) (rest : List Byte)
    (hlen : s.length ≤ 50) (hz : ∀ b ∈ s, b ≠ 0) :
    readString ord
        { bytes := (writeString ord (openOutput true) s).bytes ++ rest, good := true } 50 =
      .ok (s, { bytes := rest, good := true }) := by
  have hmod : s.length % 65536 = s.length := Nat.mod_eq_of_lt (by omega)
  have hall : s.all (fun b => b != 0) = true := by
    rw [List.all_eq_true]
    intro b hb
    simpa using hz b hb
  have h := readString_string ord s 50 rest hlen (by omega)
  rw [takeWhile_ne_zero s hall] at h
  rw [openOutput, writeString_good, hmod, List.take_length]
  simpa [List.append_assoc] using h

/-- Witness of C5 (amended): a string of three non-zero octets, big-endian host. -/
theorem readString_writeString_witness :
    ([65, 66, 67] : Str).length ≤ 50 ∧ (∀ b ∈ ([65, 66, 67] : Str), b ≠ 0) ∧
    readString .big
        { bytes := (writeString .big (openOutput true) [65, 66, 67]).bytes ++ [9],
          good := true } 50 =
      .ok ([65, 66, 67], { bytes := [9], good := true }) :=
  ⟨by decide, by simp, readString_writeString .big [65, 66, 67] [9] (by decide) (by simp)⟩

/-! ## The bytes of a saved file -/

/-- C6: for a collection with aligned flags whose `_removed_count` is the number of set
flags, `saveCollection` returns `true` and writes exactly the 8-byte encoding of
`getSize - _removed_count` followed by the payloads of the records whose flag is false,
in index order; that number is the number of payloads, and it is the value the header
decodes to. -/
theorem saveCollection_bytes (ord : ByteOrder) (c : ACollector Exhibit)
    (halign : c._items.length = c._removed_signs.length)
    (hcount : c._removed_count = c._removed_signs.count true)
    (hsize : c.getSize < 2 ^ 64) :
    saveCollection ord (Exhibit.write ord) true c =
      .ok (true, objectBytes ord sizeof_size_t (c.getSize - c._removed_count) ++
        (liveItems c).flatMap (Exhibit.payload ord)) ∧
    c.getSize - c._removed_count = (liveItems c).length ∧
    objectValue ord (objectBytes ord sizeof_size_t (c.getSize - c._removed_count)) =
      (liveItems c).length := by
  unfold getSize at hsize ⊢
  have hk := liveItems_length c halign hcount
  have hle : c._removed_count ≤ c._items.length := by
    rw [hcount, halign]; exact List.count_le_length _ _
  refine ⟨saveCollection_eq ord (Exhibit.write ord) (Exhibit.payload ord)
    (fun x out => by rw [Exhibit.write_good]) c halign hle, hk.symm, ?_⟩
  rw [objectValue_objectBytes, hk, sizeof_size_t]
  apply Nat.mod_eq_of_lt
  norm_num at hsize ⊢
  omega

/-- Witness of C6: the collection `[A, B (removed), C]`. -/
theorem saveCollection_bytes_witness :
    demoThree._items.length = demoThree._removed_signs.length ∧
    demoThree._removed_count = demoThree._removed_signs.count true ∧
    saveCollection .little (Exhibit.write .little) true demoThree =
      .ok (true, objectBytes .little sizeof_size_t (demoThree.getSize - demoThree._removed_count) ++
        (liveItems demoThree).flatMap (Exhibit.payload .little)) ∧
    demoThree.getSize - demoThree._removed_count = (liveItems demoThree).length ∧
    objectValue .little
        (objectBytes .little sizeof_size_t (demoThree.getSize - demoThree._removed_count)) =
      (liveItems demoThree).length :=
  ⟨rfl, rfl, saveCollection_bytes .little demoThree rfl rfl (by decide)⟩

/-- C7: with `i` below the size, `updateItem i d` returns; afterwards `getItem i` is `d`,
and the size, the item at every other index, every removal flag and `_removed_count`
are unchanged. -/
theorem updateItem_frame {α : Type} (c : ACollector α) (i : Nat) (d : α)
    (hi : i < c.getSize) :
    (c.updateItem i d).1 = .ok () ∧
    (c.updateItem i d).2.getItem i = .ok d ∧
    (c.updateItem i d).2.getSize = c.getSize ∧
    (∀ j, j ≠ i → (c.updateItem i d).2.getItem j = c.getItem j) ∧
    (c.updateItem i d).2._removed_signs = c._removed_signs ∧
    (∀ j, (c.updateItem i d).2.isRemoved j = c.isRemoved j) ∧
    (c.updateItem i d).2._removed_count = c._removed_count := by
  have hi1 : i < c._items.length := hi
  have h1 : c.updateItem i d = (.ok (), { c with _items := c._items.set i d }) := by
    simp only [updateItem, hi1, if_true]
  rw [h1]
  refine ⟨rfl, ?_, ?_, ?_, rfl, fun j => rfl, rfl⟩
  · simp [getItem, hi1]
  · simp [getSize]
  · intro j hj
    by_cases hjl : j < c._items.length
    · simp [getItem, hjl, List.getElem_set_ne (Ne.symm hj)]
    · simp [getItem, hjl]

/-- Witness of C7: `updateItem 0 D` on the two-record collection `[A, C]`. -/
theorem updateItem_frame_witness :
    (0 < (⟨[demoA, demoC], [false, false], 0⟩ : ACollector Exhibit).getSize) ∧
    (((⟨[demoA, demoC], [false, false], 0⟩ : ACollector Exhibit).updateItem 0 demoD).1 =
      .ok () ∧
    ((⟨[demoA, demoC], [false, false], 0⟩ : ACollector Exhibit).updateItem 0 demoD).2.getItem 0 =
      .ok demoD ∧
    ((⟨[demoA, demoC], [false, false], 0⟩ : ACollector Exhibit).updateItem 0 demoD).2.getSize =
      (⟨[demoA, demoC], [false, false], 0⟩ : ACollector Exhibit).getSize ∧
    (∀ j, j ≠ 0 →
      ((⟨[demoA, demoC], [false, false], 0⟩ : ACollector Exhibit).updateItem 0 demoD).2.getItem j =
        (⟨[demoA, demoC], [false, false], 0⟩ : ACollector Exhibit).getItem j) ∧
    ((⟨[demoA, demoC], [false, false], 0⟩ : ACollector Exhibit).updateItem 0
        demoD).2._removed_signs = [false, false] ∧
    (∀ j, ((⟨[demoA, demoC], [false, false], 0⟩ : ACollector Exhibit).updateItem 0
        demoD).2.isRemoved j =
      (⟨[demoA, demoC], [false, false], 0⟩ : ACollector Exhibit).isRemoved j) ∧
    ((⟨[demoA, demoC], [false, false], 0⟩ : ACollector Exhibit).updateItem 0
        demoD).2._removed_count = 0) :=
  ⟨by decide, updateItem_frame ⟨[demoA, demoC], [false, false], 0⟩ 0 demoD (by decide)⟩

/-! ## Loading into a collection that is not empty -/

/-- C8 (failing input): after `addItem`, `removeItem 0`, `clean` the collector holds no
record but `_removed_count` is 1; loading a well-formed file whose count header is 0
then stops at the final `assert(invariant())` instead of returning. -/
theorem loadCollection_after_clean_aborts :
    runOps .little (ItemCollector.read .little)
        [.addItem demoA, .removeItem 0, .clean] ACollector.empty =
      (.ok (), { _items := [], _removed_signs := [], _removed_count := 1 }) ∧
    loadCollection .little (ItemCollector.read .little)
        (some (objectBytes .little sizeof_size_t 0 ++
          ([] : List Exhibit).flatMap (Exhibit.payload .little)))
        { _items := [], _removed_signs := [], _removed_count := 1 } =
      (.error .assertion, { _items := [], _removed_signs := [], _removed_count := 1 }) := by
  decide

/-! ## Index checks -/

theorem loadLoop_aligned {α : Type} (read : IStream → Except Fault (α × IStream))
    (count : Nat) (ifs : IStream) (c : ACollector α)
    (halign : c._items.length = c._removed_signs.length) :
    (loadLoop read count ifs c).2._items.length =
      (loadLoop read count ifs c).2._removed_signs.length := by
  induction count generalizing ifs c with
  | zero => exact halign
  | succ n ih =>
    unfold loadLoop
    split
    · exact halign
    · exact ih _ _ (by simp [addItem, halign])

theorem loadCollection_aligned {α : Type} (ord : ByteOrder)
    (read : IStream → Except Fault (α × IStream)) (file : Option (List Byte))
    (c : ACollector α) (halign : c._items.length = c._removed_signs.length) :
    (c.loadCollection ord read file).2._items.length =
      (c.loadCollection ord read file).2._removed_signs.length := by
  unfold loadCollection
  simp only
  split
  · exact halign
  · split
    · exact halign
    · rename_i count ifs1 _
      have h := loadLoop_aligned read count ifs1 c halign
      split
      · rename_i f c1 heq
        rw [heq] at h
        exact h
      · rename_i ifs2 c1 heq
        rw [heq] at h
        split <;> exact h

theorem run_aligned {α : Type} (ord : ByteOrder) (read : IStream → Except Fault (α × IStream))
    (op : Op α) (c : ACollector α) (halign : c._items.length = c._removed_signs.length) :
    (op.run ord read c).2._items.length = (op.run ord read c).2._removed_signs.length := by
  cases op with
  | addItem item => simp [Op.run, addItem, halign]
  | removeItem index =>
    simp only [Op.run, removeItem]
    split
    · split
      · split
        · simpa using halign
        · exact halign
      · exact halign
    · exact halign
  | updateItem index item =>
    simp only [Op.run, updateItem]
    split
    · simpa using halign
    · exact halign
  | clean => simp [Op.run, clean]
  | loadCollection file =>
    have h := loadCollection_aligned ord read file c halign
    simp only [Op.run]
    split
    · rename_i b c1 heq
      rw [heq] at h
      exact h
    · rename_i f c1 heq
      rw [heq] at h
      exact h

theorem runOps_aligned {α : Type} (ord : ByteOrder)
    (read : IStream → Except Fault (α × IStream)) (ops : List (Op α)) (c : ACollector α)
    (halign : c._items.length = c._removed_signs.length) :
    (runOps ord read ops c).2._items.length = (runOps ord read ops c).2._removed_signs.length := by
  induction ops generalizing c with
  | nil => exact halign
  | cons op ops ih =>
    have h := run_aligned ord read op c halign
    simp only [runOps]
    split
    · rename_i u c1 heq
      rw [heq] at h
      exact ih c1 h
    · rename_i f c1 heq
      rw [heq] at h
      exact h

/-- C9: on every collection reached from the empty one by a sequence of calls that all
returned, each of `getItem i`, `isRemoved i`, `removeItem i` and `updateItem i x` stops
on an assertion exactly when `i ≥ getSize`; when `i < getSize` all four return, and a
call that stops leaves the collection as it was. -/
theorem index_calls_fail_iff {α : Type} (ord : ByteOrder)
    (read : IStream → Except Fault (α × IStream)) (ops : List (Op α)) (c : ACollector α)
    (hreach : runOps ord read ops ACollector.empty = (.ok (), c)) (i : Nat) (x : α) :
    (c.getItem i = .error .assertion ↔ c.getSize ≤ i) ∧
    (c.isRemoved i = .error .assertion ↔ c.getSize ≤ i) ∧
    ((c.removeItem i).1 = .error .assertion ↔ c.getSize ≤ i) ∧
    ((c.updateItem i x).1 = .error .assertion ↔ c.getSize ≤ i) ∧
    (i < c.getSize →
      (∃ v, c.getItem i = .ok v) ∧ (∃ b, c.isRemoved i = .ok b) ∧
      (c.removeItem i).1 = .ok () ∧ (c.updateItem i x).1 = .ok ()) ∧
    (c.getSize ≤ i → (c.removeItem i).2 = c ∧ (c.updateItem i x).2 = c) := by
  have halign : c._items.length = c._removed_signs.length := by
    have h := runOps_aligned ord read ops ACollector.empty rfl
    rw [hreach] at h
    exact h
  unfold getSize
  by_cases hi : i < c._items.length
  · have hi2 : i < c._removed_signs.length := halign ▸ hi
    have hn : ¬ c._items.length ≤ i := by omega
    have hr : (c.removeItem i).1 = .ok () := by
      simp only [removeItem, hi, hi2, if_true, dite_true]
      split <;> rfl
    have hu : (c.updateItem i x).1 = .ok () := by
      simp only [updateItem, hi, if_true]
    refine ⟨?_, ?_, ?_, ?_, fun _ => ⟨?_, ?_, hr, hu⟩, fun h => absurd h hn⟩
    · simp [getItem, hi]
    · simp [isRemoved, hi2, hi]
    · simp [hr, hi]
    · simp [hu, hi]
    · exact ⟨c._items.get ⟨i, hi⟩, by simp only [getItem, hi, dite_true]⟩
    · exact ⟨c._removed_signs.get ⟨i, hi2⟩, by simp only [isRemoved, hi2, dite_true]⟩
  · have hi2 : ¬ i < c._removed_signs.length := halign ▸ hi
    have hn : c._items.length ≤ i := by omega
    refine ⟨?_, ?_, ?_, ?_, fun h => absurd h hi, fun _ => ⟨?_, ?_⟩⟩
    · simp [getItem, hi, hn]
    · simp [isRemoved, hi2, hn]
    · simp [removeItem, hi, hn]
    · simp [updateItem, hi, hn]
    · simp [removeItem, hi]
    · simp [updateItem, hi]

/-- Witness of C9: the collection after `add A`, `add B`, `remove 0`, at index 2. -/
theorem index_calls_fail_iff_witness :
    runOps .little (ItemCollector.read .little)
        [.addItem demoA, .addItem demoB, .removeItem 0] ACollector.empty =
      (.ok (), ⟨[demoA, demoB], [true, false], 1⟩) ∧
    (((⟨[demoA, demoB], [true, false], 1⟩ : ACollector Exhibit).getItem 2 =
        .error .assertion ↔
      (⟨[demoA, demoB], [true, false], 1⟩ : ACollector Exhibit).getSize ≤ 2) ∧
    ((⟨[demoA, demoB], [true, false], 1⟩ : ACollector Exhibit).isRemoved 2 =
        .error .assertion ↔
      (⟨[demoA, demoB], [true, false], 1⟩ : ACollector Exhibit).getSize ≤ 2) ∧
    (((⟨[demoA, demoB], [true, false], 1⟩ : ACollector Exhibit).removeItem 2).1 =
        .error .assertion ↔
      (⟨[demoA, demoB], [true, false], 1⟩ : ACollector Exhibit).getSize ≤ 2) ∧
    (((⟨[demoA, demoB], [true, false], 1⟩ : ACollector Exhibit).updateItem 2 demoD).1 =
        .error .assertion ↔
      (⟨[demoA, demoB], [true, false], 1⟩ : ACollector Exhibit).getSize ≤ 2) ∧
    (2 < (⟨[demoA, demoB], [true, false], 1⟩ : ACollector Exhibit).getSize →
      (∃ v, (⟨[demoA, demoB], [true, false], 1⟩ : ACollector Exhibit).getItem 2 = .ok v) ∧
      (∃ b, (⟨[demoA, demoB], [true, false], 1⟩ : ACollector Exhibit).isRemoved 2 = .ok b) ∧
      ((⟨[demoA, demoB], [true, false], 1⟩ : ACollector Exhibit).removeItem 2).1 = .ok () ∧
      ((⟨[demoA, demoB], [true, false], 1⟩ : ACollector Exhibit).updateItem 2 demoD).1 =
        .ok ()) ∧
    ((⟨[demoA, demoB], [true, false], 1⟩ : ACollector Exhibit).getSize ≤ 2 →
      ((⟨[demoA, demoB], [true, false], 1⟩ : ACollector Exhibit).removeItem 2).2 =
        ⟨[demoA, demoB], [true, false], 1⟩ ∧
      ((⟨[demoA, demoB], [true, false], 1⟩ : ACollector Exhibit).updateItem 2 demoD).2 =
        ⟨[demoA, demoB], [true, false], 1⟩)) :=
  ⟨rfl, index_calls_fail_iff .little (ItemCollector.read .little)
    [.addItem demoA, .addItem demoB, .removeItem 0] ⟨[demoA, demoB], [true, false], 1⟩ rfl 2
    demoD⟩

/-- C10: when `removeItem i` is called with `i` below the size and flag `i` false, the
call returns; afterwards flag `i` is true, `_removed_count` is larger by exactly 1, and
the size, the items and every other removal flag are unchanged. -/
theorem removeItem_live {α : Type} (c : ACollector α) (i : Nat)
    (hi : i < c.getSize) (hflag : c.isRemoved i = .ok false) :
    (c.removeItem i).1 = .ok () ∧
    (c.removeItem i).2.isRemoved i = .ok true ∧
    (c.removeItem i).2._removed_count = c._removed_count + 1 ∧
    (c.removeItem i).2.getSize = c.getSize ∧
    (c.removeItem i).2._items = c._items ∧
    (∀ j, j ≠ i → (c.removeItem i).2.isRemoved j = c.isRemoved j) := by
  have hi1 : i < c._items.length := hi
  have hi2 : i < c._removed_signs.length := by
    by_contra h
    simp [isRemoved, h] at hflag
  have hf : c._removed_signs.get ⟨i, hi2⟩ = false := by
    simpa [isRemoved, hi2] using hflag
  have h1 : c.removeItem i = (.ok (), { c with
      _removed_signs := c._removed_signs.set i true,
      _removed_count := c._removed_count + 1 }) := by
    simp only [removeItem, hi1, hi2, hf, if_true, dite_true]
  rw [h1]
  refine ⟨rfl, ?_, rfl, rfl, rfl, ?_⟩
  · simp [isRemoved, hi2]
  · intro j hj
    by_cases hjl : j < c._removed_signs.length
    · simp [isRemoved, hjl, List.getElem_set_ne (Ne.symm hj)]
    · simp [isRemoved, hjl]

/-- Witness of C10: removing index 1 of `[A, B]`, both live. -/
theorem removeItem_live_witness :
    (1 < (⟨[demoA, demoB], [false, false], 0⟩ : ACollector Exhibit).getSize) ∧
    ((⟨[demoA, demoB], [false, false], 0⟩ : ACollector Exhibit).isRemoved 1 = .ok false) ∧
    (((⟨[demoA, demoB], [false, false], 0⟩ : ACollector Exhibit).removeItem 1).1 = .ok () ∧
    ((⟨[demoA, demoB], [false, false], 0⟩ : ACollector Exhibit).removeItem 1).2.isRemoved 1 =
      .ok true ∧
    ((⟨[demoA, demoB], [false, false], 0⟩ : ACollector Exhibit).removeItem 1).2._removed_count =
      0 + 1 ∧
    ((⟨[demoA, demoB], [false, false], 0⟩ : ACollector Exhibit).removeItem 1).2.getSize = 2 ∧
    ((⟨[demoA, demoB], [false, false], 0⟩ : ACollector Exhibit).removeItem 1).2._items =
      [demoA, demoB] ∧
    (∀ j, j ≠ 1 →
      ((⟨[demoA, demoB], [false, false], 0⟩ : ACollector Exhibit).removeItem 1).2.isRemoved j =
        (⟨[demoA, demoB], [false, false], 0⟩ : ACollector Exhibit).isRemoved j)) :=
  ⟨by decide, rfl, removeItem_live ⟨[demoA, demoB], [false, false], 0⟩ 1 (by decide) rfl⟩

/-! ## Cleaning and saving without live records -/

/-- C11: after `clean()` the size is 0, so `getItem` and `isRemoved` stop on their
assertion at every index. -/
theorem clean_size {α : Type} (c : ACollector α) :
    c.clean.getSize = 0 ∧
    (∀ i, c.clean.getItem i = .error .assertion) ∧
    (∀ i, c.clean.isRemoved i = .error .assertion) := by
  refine ⟨rfl, fun i => ?_, fun i => ?_⟩
  · simp [clean, getItem]
  · simp [clean, isRemoved]

theorem saveStep_removed {α : Type} (write : α → OStream → Bool × OStream)
    (c : ACollector α) (hall : ∀ f ∈ c._removed_signs, f = true) (ofs : OStream) (i : Nat) :
    saveStep write c ofs i = ofs := by
  unfold saveStep
  split
  · rename_i item hf _
    have hmem : false ∈ c._removed_signs := List.get?_mem hf
    exact absurd (hall false hmem) (by decide)
  · rfl

theorem saveLoop_removed {α : Type} (write : α → OStream → Bool × OStream)
    (c : ACollector α) (hall : ∀ f ∈ c._removed_signs, f = true) (l : List Nat)
    (ofs : OStream) :
    l.foldl (saveStep write c) ofs = ofs := by
  induction l generalizing ofs with
  | nil => rfl
  | cons i l ih => rw [List.foldl_cons, saveStep_removed write c hall, ih]

theorem count_true_of_all (flags : List Bool) (hall : ∀ f ∈ flags, f = true) :
    flags.count true = flags.length := by
  rw [List.count_eq_length]
  intro f hf
  exact (hall f hf).symm

/-- C12: for a collection with aligned flags whose `_removed_count` is the number of set
flags and in which every flag is set (in particular the empty collection),
`saveCollection` returns `true` and writes exactly 8 bytes, the count header, which
decodes to 0; no payload follows, whatever the record writer. -/
theorem saveCollection_no_live {α : Type} (ord : ByteOrder)
    (write : α → OStream → Bool × OStream) (c : ACollector α)
    (halign : c._items.length = c._removed_signs.length)
    (hcount : c._removed_count = c._removed_signs.count true)
    (hall : ∀ f ∈ c._removed_signs, f = true) :
    saveCollection ord write true c = .ok (true, objectBytes ord sizeof_size_t 0) ∧
    (objectBytes ord sizeof_size_t 0).length = 8 ∧
    objectValue ord (objectBytes ord sizeof_size_t 0) = 0 ∧
    liveItems c = [] := by
  have hrc : c._removed_count = c._items.length := by
    rw [hcount, count_true_of_all _ hall, halign]
  have hinv : invariant c = true := by
    simp only [invariant, Bool.and_eq_true, beq_iff_eq, decide_eq_true_eq]
    exact ⟨halign, by omega⟩
  have hlt : ¬ c._items.length < c._removed_count := by omega
  refine ⟨?_, ?_, ?_, ?_⟩
  · simp only [saveCollection, hinv, openOutput, hlt, writeStringT_good, sizeof_size_t,
      saveLoop_removed write c hall]
    simp [hrc]
  · rw [objectBytes_length, sizeof_size_t]
  · rw [objectValue_objectBytes]; rfl
  · simp only [liveItems, List.map_eq_nil_iff, List.filter_eq_nil_iff]
    intro p hp
    have := hall p.2 (List.of_mem_zip hp).2
    simp [this]

/-- Witness of C12: two records, both removed. -/
theorem saveCollection_no_live_witness :
    (∀ f ∈ ([true, true] : List Bool), f = true) ∧
    saveCollection .big (Exhibit.write .big) true
        (⟨[demoA, demoB], [true, true], 2⟩ : ACollector Exhibit) =
      .ok (true, objectBytes .big sizeof_size_t 0) ∧
    (objectBytes .big sizeof_size_t 0).length = 8 ∧
    objectValue .big (objectBytes .big sizeof_size_t 0) = 0 ∧
    liveItems (⟨[demoA, demoB], [true, true], 2⟩ : ACollector Exhibit) = [] :=
  ⟨by decide, saveCollection_no_live .big (Exhibit.write .big)
    ⟨[demoA, demoB], [true, true], 2⟩ rfl rfl (by decide)⟩

/-! ## The empty string -/

/-- C13: `writeString` of the empty string writes exactly two bytes, both zero, and
`readString`, for any bound, applied to a stream that starts with these two bytes
returns the empty string and consumes exactly them. -/
theorem empty_string_codec (ord : ByteOrder) :
    (writeString ord (openOutput true) []).bytes = [0, 0] ∧
    (∀ (maxLen : Nat) (rest : List Byte),
      readString ord { bytes := [0, 0] ++ rest, good := true } maxLen =
        .ok ([], { bytes := rest, good := true })) := by
  have hb : objectBytes ord 2 0 = [0, 0] := by
    cases ord <;> rfl
  refine ⟨?_, fun maxLen rest => ?_⟩
  · rw [openOutput, writeString_good]
    simp [hb]
  · have h := readString_string ord [] maxLen rest (Nat.zero_le _) (by decide)
    simpa [hb] using h

/-! ## The length check and the layout of a string -/

theorem IStream.read_good (is : IStream) (n : Nat) (hgood : is.good = true)
    (hn : n ≤ is.bytes.length) :
    is.read n = .ok (is.bytes.take n, { bytes := is.bytes.drop n, good := true }) := by
  obtain ⟨bs, g⟩ := is
  simp only at hgood hn
  subst hgood
  simp [IStream.read, hn]

/-- C14: on a stream without error bit that holds at least two bytes, `readString` stops
on its assertion exactly when the value of the 2-byte length is greater than the bound;
with the bound 50 of the record schema, a length of 50 does not stop on the assertion
and a length of 51 does. -/
theorem readString_assertion_iff (ord : ByteOrder) (is : IStream) (maxLen : Nat)
    (hgood : is.good = true) (hlen : 2 ≤ is.bytes.length) :
    (readString ord is maxLen = .error .assertion ↔
      maxLen < objectValue ord (is.bytes.take 2)) ∧
    (objectValue ord (is.bytes.take 2) = 50 →
      readString ord is MAX_STRING_LENGTH ≠ .error .assertion) ∧
    (objectValue ord (is.bytes.take 2) = 51 →
      readString ord is MAX_STRING_LENGTH = .error .assertion) := by
  have key : ∀ m : Nat, (readString ord is m = .error .assertion ↔
      m < objectValue ord (is.bytes.take 2)) := by
    intro m
    unfold readString
    rw [sizeof_uint16_t]
    simp only [readNumber, IStream.read_good is 2 hgood hlen]
    by_cases hm : objectValue ord (is.bytes.take 2) ≤ m
    · rw [if_pos hm]
      have hn : ¬ m < objectValue ord (is.bytes.take 2) := by omega
      simp only [hn, iff_false]
      by_cases h0 : 0 < objectValue ord (is.bytes.take 2)
      · rw [if_pos h0]
        by_cases hr : objectValue ord (is.bytes.take 2) ≤ (is.bytes.drop 2).length
        · rw [IStream.read_good ⟨is.bytes.drop 2, true⟩ _ rfl hr]
          simp
        · have hs : IStream.read (objectValue ord (is.bytes.take 2))
              ⟨is.bytes.drop 2, true⟩ = .error .shortRead := by
            simp only [IStream.read, true_and, if_neg hr]
          rw [hs]
          simp
      · rw [if_neg h0]
        simp
    · rw [if_neg hm]
      have hn : m < objectValue ord (is.bytes.take 2) := by omega
      simp [hn]
  refine ⟨key maxLen, fun h => ?_, fun h => ?_⟩
  · rw [Ne, key, h, MAX_STRING_LENGTH]; decide
  · rw [key, h, MAX_STRING_LENGTH]; decide

/-- Witness of C14: a stream whose length field is 51, followed by 51 bytes. -/
theorem readString_assertion_iff_witness :
    (2 ≤ (objectBytes .little 2 51 ++ List.replicate 51 (65 : Byte)).length) ∧
    ((readString .little
          { bytes := objectBytes .little 2 51 ++ List.replicate 51 65, good := true } 60 =
        .error .assertion ↔
      60 < objectValue .little
        ((objectBytes .little 2 51 ++ List.replicate 51 (65 : Byte)).take 2)) ∧
    (objectValue .little
        ((objectBytes .little 2 51 ++ List.replicate 51 (65 : Byte)).take 2) = 50 →
      readString .little
          { bytes := objectBytes .little 2 51 ++ List.replicate 51 65, good := true }
          MAX_STRING_LENGTH ≠ .error .assertion) ∧
    (objectValue .little
        ((objectBytes .little 2 51 ++ List.replicate 51 (65 : Byte)).take 2) = 51 →
      readString .little
          { bytes := objectBytes .little 2 51 ++ List.replicate 51 65, good := true }
          MAX_STRING_LENGTH = .error .assertion)) :=
  ⟨by decide, readString_assertion_iff .little
    { bytes := objectBytes .little 2 51 ++ List.replicate 51 65, good := true } 60 rfl
    (by decide)⟩

/-- C15: for every string `s`, `writeString` writes the 2-byte encoding of
`p = s.length % 65536` followed by the first `p` bytes of `s`, in all `2 + p` bytes;
when `s.length ≤ 65535` the content is the whole of `s`. -/
theorem writeString_layout (ord : ByteOrder) (s : Str) :
    (writeString ord (openOutput true) s).bytes =
      objectBytes ord sizeof_uint16_t (s.length % 65536) ++ s.take (s.length % 65536) ∧
    (writeString ord (openOutput true) s).bytes.length = 2 + s.length % 65536 ∧
    (s.length ≤ 65535 →
      (writeString ord (openOutput true) s).bytes =
        objectBytes ord sizeof_uint16_t s.length ++ s) := by
  have h : (writeString ord (openOutput true) s).bytes =
      objectBytes ord sizeof_uint16_t (s.length % 65536) ++ s.take (s.length % 65536) := by
    rw [openOutput, writeString_good, sizeof_uint16_t]
    simp
  refine ⟨h, ?_, fun hs => ?_⟩
  · rw [h, List.length_append, objectBytes_length, List.length_take, sizeof_uint16_t]
    have : s.length % 65536 ≤ s.length := Nat.mod_le _ _
    omega
  · rw [h, Nat.mod_eq_of_lt (by omega), List.take_length]

theorem toBytesLE_mod (w n : Nat) : toBytesLE w (n % 256 ^ w) = toBytesLE w n := by
  induction w generalizing n with
  | zero => rfl
  | succ w ih =>
    simp only [toBytesLE, List.cons.injEq, Fin.mk.injEq]
    have hp : 256 ^ (w + 1) = 256 * 256 ^ w := by rw [pow_succ, Nat.mul_comm]
    constructor
    · rw [hp, Nat.mod_mul_right_mod]
    · rw [← ih (n / 256), ← ih (n % 256 ^ (w + 1) / 256), hp, Nat.mod_mul_right_div_self]
      rw [Nat.mod_mod]

theorem objectBytes_mod (ord : ByteOrder) (w n : Nat) :
    objectBytes ord w (n % 256 ^ w) = objectBytes ord w n := by
  cases ord <;> simp [objectBytes, toBytesLE_mod]

/-! ## Appending a record -/

/-- C16: on a collection of size `n` with aligned flags, `addItem r` makes the size
`n + 1`, `getItem n` is `r`, `isRemoved n` is false, and every earlier item, every
earlier removal flag and `_removed_count` are unchanged. -/
theorem addItem_appends {α : Type} (c : ACollector α) (r : α)
    (halign : c._items.length = c._removed_signs.length) :
    (c.addItem r).getSize = c.getSize + 1 ∧
    (c.addItem r).getItem c.getSize = .ok r ∧
    (c.addItem r).isRemoved c.getSize = .ok false ∧
    (∀ j, j < c.getSize → (c.addItem r).getItem j = c.getItem j) ∧
    (∀ j, j < c.getSize → (c.addItem r).isRemoved j = c.isRemoved j) ∧
    (c.addItem r)._removed_count = c._removed_count := by
  unfold getSize
  refine ⟨by simp [addItem], ?_, ?_, fun j hj => ?_, fun j hj => ?_, rfl⟩
  · simp [addItem, getItem]
  · simp [addItem, isRemoved, halign]
  · have hj2 : j < c._items.length + 1 := by omega
    simp [addItem, getItem, hj, hj2, List.getElem_append_left]
  · have hj1 : j < c._removed_signs.length := halign ▸ hj
    have hj2 : j < c._removed_signs.length + 1 := by omega
    simp [addItem, isRemoved, hj1, hj2, List.getElem_append_left]

/-- Witness of C16: adding `C` to the collection `[A, B (removed)]`. -/
theorem addItem_appends_witness :
    ((⟨[demoA, demoB], [false, true], 1⟩ : ACollector Exhibit).addItem demoC).getSize =
      (⟨[demoA, demoB], [false, true], 1⟩ : ACollector Exhibit).getSize + 1 ∧
    ((⟨[demoA, demoB], [false, true], 1⟩ : ACollector Exhibit).addItem demoC).getItem
        (⟨[demoA, demoB], [false, true], 1⟩ : ACollector Exhibit).getSize = .ok demoC ∧
    ((⟨[demoA, demoB], [false, true], 1⟩ : ACollector Exhibit).addItem demoC).isRemoved
        (⟨[demoA, demoB], [false, true], 1⟩ : ACollector Exhibit).getSize = .ok false ∧
    (∀ j, j < (⟨[demoA, demoB], [false, true], 1⟩ : ACollector Exhibit).getSize →
      ((⟨[demoA, demoB], [false, true], 1⟩ : ACollector Exhibit).addItem demoC).getItem j =
        (⟨[demoA, demoB], [false, true], 1⟩ : ACollector Exhibit).getItem j) ∧
    (∀ j, j < (⟨[demoA, demoB], [false, true], 1⟩ : ACollector Exhibit).getSize →
      ((⟨[demoA, demoB], [false, true], 1⟩ : ACollector Exhibit).addItem demoC).isRemoved j =
        (⟨[demoA, demoB], [false, true], 1⟩ : ACollector Exhibit).isRemoved j) ∧
    ((⟨[demoA, demoB], [false, true], 1⟩ : ACollector Exhibit).addItem demoC)._removed_count =
      1 :=
  addItem_appends ⟨[demoA, demoB], [false, true], 1⟩ demoC rfl

/-! ## The payload of a record -/

/-- C17: for every `Exhibit` that satisfies its invariant, `write` on an opened stream
returns `true` and appends, in this order, the length-prefixed name, the 4 bytes of the
category ordinal, the length-prefixed currency name, the 4 bytes of the currency count
and the 4 bytes of the coin count: `16 + len(name) + len(currency)` bytes in all. -/
theorem Exhibit.write_layout (ord : ByteOrder) (e : Exhibit) (out : List Byte)
    (hinv : e.invariant = true) :
    Exhibit.write ord e { bytes := out, good := true } =
      (true, { bytes := out ++
        ((objectBytes ord sizeof_uint16_t e._special_name.length ++ e._special_name) ++
          objectBytes ord sizeof_int e._metal_type.toNat ++
          (objectBytes ord sizeof_uint16_t e._currency_name.length ++ e._currency_name) ++
          objectBytes ord sizeof_int e._count_of_currency.toNat ++
          objectBytes ord sizeof_int e._count_of_coins.toNat), good := true }) ∧
    (Exhibit.payload ord e).length =
      16 + e._special_name.length + e._currency_name.length := by
  obtain ⟨name, mt, cur, n1, n2⟩ := e
  simp only [Exhibit.invariant, MAX_STRING_LENGTH, Bool.and_eq_true, decide_eq_true_eq] at hinv
  obtain ⟨⟨⟨⟨⟨hn, hm0⟩, hm2⟩, hc⟩, h1⟩, h2⟩ := hinv
  have hnmod : name.length % 65536 = name.length := Nat.mod_eq_of_lt (by omega)
  have hcmod : cur.length % 65536 = cur.length := Nat.mod_eq_of_lt (by omega)
  have hmt : ofSigned 4 mt = mt.toNat := by
    unfold ofSigned
    have : mt % 2 ^ (8 * 4) = mt := Int.emod_eq_of_lt hm0 (by norm_num; omega)
    rw [this]
  have hobj : ∀ x : Int, 0 ≤ x → objectBytes ord 4 (ofSigned 4 x) = objectBytes ord 4 x.toNat := by
    intro x hx
    have hv : ofSigned 4 x = x.toNat % 256 ^ 4 := by
      unfold ofSigned
      have h256 : (2 : Int) ^ (8 * 4) = ((256 ^ 4 : Nat) : Int) := by norm_num
      rw [h256]
      have hx2 : x = ((x.toNat : Nat) : Int) := (Int.toNat_of_nonneg hx).symm
      conv_lhs => rw [hx2]
      rw [← Int.natCast_mod, Int.toNat_natCast]
    rw [hv]
    exact objectBytes_mod ord 4 x.toNat
  constructor
  · rw [Exhibit.write_good, Exhibit.payload_eq]
    simp only [hnmod, hcmod, List.take_length, sizeof_uint16_t, sizeof_int, hmt,
      hobj n1 h1, hobj n2 h2, List.append_assoc]
  · rw [Exhibit.payload_eq]
    simp only [hnmod, hcmod, List.take_length, List.length_append, objectBytes_length]
    omega

/-- Witness of C17: the payload of the sample record `A` on a little-endian host. -/
theorem Exhibit.write_layout_witness :
    Exhibit.write .little demoA { bytes := [], good := true } =
      (true, { bytes := [] ++
        ((objectBytes .little sizeof_uint16_t demoA._special_name.length ++
            demoA._special_name) ++
          objectBytes .little sizeof_int demoA._metal_type.toNat ++
          (objectBytes .little sizeof_uint16_t demoA._currency_name.length ++
            demoA._currency_name) ++
          objectBytes .little sizeof_int demoA._count_of_currency.toNat ++
          objectBytes .little sizeof_int demoA._count_of_coins.toNat), good := true }) ∧
    (Exhibit.payload .little demoA).length =
      16 + demoA._special_name.length + demoA._currency_name.length :=
  Exhibit.write_layout .little demoA [] rfl

/-! ## What `readString` consumes -/

theorem readString_of_le (ord : ByteOrder) (is : IStream) (maxLen : Nat)
    (hgood : is.good = true)
    (hmax : objectValue ord (is.bytes.take 2) ≤ maxLen)
    (hlen : 2 + objectValue ord (is.bytes.take 2) ≤ is.bytes.length) :
    readString ord is maxLen =
      .ok (((is.bytes.drop 2).take (objectValue ord (is.bytes.take 2))).takeWhile
          (fun x => x != 0),
        { bytes := is.bytes.drop (2 + objectValue ord (is.bytes.take 2)), good := true }) := by
  unfold readString
  rw [sizeof_uint16_t]
  simp only [readNumber, IStream.read_good is 2 hgood (by omega)]
  rw [if_pos hmax]
  by_cases h0 : 0 < objectValue ord (is.bytes.take 2)
  · rw [if_pos h0]
    have hr : objectValue ord (is.bytes.take 2) ≤ (is.bytes.drop 2).length := by
      rw [List.length_drop]; omega
    rw [IStream.read_good ⟨is.bytes.drop 2, true⟩ _ rfl hr]
    simp only [List.drop_drop]
  · rw [if_neg h0]
    have hz : objectValue ord (is.bytes.take 2) = 0 := by omega
    simp [hz]

/-- C18: on a stream without error bit whose first two bytes hold a length `len` that is
at most the bound and that has at least `len` bytes after them, `readString` returns
and leaves the stream `2 + len` bytes further; the result is the run of the `len`
content bytes before their first zero octet, hence all of them when none is zero. -/
theorem readString_consumes (ord : ByteOrder) (is : IStream) (maxLen : Nat)
    (hgood : is.good = true)
    (hmax : objectValue ord (is.bytes.take 2) ≤ maxLen)
    (hlen : 2 + objectValue ord (is.bytes.take 2) ≤ is.bytes.length) :
    readString ord is maxLen =
      .ok (((is.bytes.drop 2).take (objectValue ord (is.bytes.take 2))).takeWhile
          (fun x => x != 0),
        { bytes := is.bytes.drop (2 + objectValue ord (is.bytes.take 2)), good := true }) ∧
    ((∀ b ∈ (is.bytes.drop 2).take (objectValue ord (is.bytes.take 2)), b ≠ 0) →
      readString ord is maxLen =
        .ok ((is.bytes.drop 2).take (objectValue ord (is.bytes.take 2)),
          { bytes := is.bytes.drop (2 + objectValue ord (is.bytes.take 2)),
            good := true })) := by
  have h := readString_of_le ord is maxLen hgood hmax hlen
  refine ⟨h, fun hz => ?_⟩
  rw [h, takeWhile_ne_zero]
  rw [List.all_eq_true]
  intro b hb
  simpa using hz b hb

/-- Witness of C18: length 4, content `1 2 0 3`, one further byte. -/
theorem readString_consumes_witness :
    (objectValue .little
        ((objectBytes .little 2 4 ++ ([1, 2, 0, 3, 9] : List Byte)).take 2) ≤ 50) ∧
    readString .little
        { bytes := objectBytes .little 2 4 ++ [1, 2, 0, 3, 9], good := true } 50 =
      .ok ([1, 2], { bytes := [9], good := true }) ∧
    ((∀ b ∈ ((objectBytes .little 2 4 ++ ([1, 2, 0, 3, 9] : List Byte)).drop 2).take
        (objectValue .little
          ((objectBytes .little 2 4 ++ ([1, 2, 0, 3, 9] : List Byte)).take 2)), b ≠ 0) →
      readString .little
          { bytes := objectBytes .little 2 4 ++ [1, 2, 0, 3, 9], good := true } 50 =
        .ok (((objectBytes .little 2 4 ++ ([1, 2, 0, 3, 9] : List Byte)).drop 2).take
            (objectValue .little
              ((objectBytes .little 2 4 ++ ([1, 2, 0, 3, 9] : List Byte)).take 2)),
          { bytes := (objectBytes .little 2 4 ++ ([1, 2, 0, 3, 9] : List Byte)).drop
              (2 + objectValue .little
                ((objectBytes .little 2 4 ++ ([1, 2, 0, 3, 9] : List Byte)).take 2)),
            good := true })) :=
  ⟨by decide, readString_consumes .little
    { bytes := objectBytes .little 2 4 ++ [1, 2, 0, 3, 9], good := true } 50 rfl (by decide)
    (by decide)⟩

/-! ## Saving after `clean` -/

/-- C19 (failing input): after `addItem A`, `removeItem 0`, `clean` the entry assertion of
`saveCollection` fails; after one more `addItem B` the assertion holds, but the header
written is 0 while one record payload follows it. -/
theorem saveCollection_after_clean :
    runOps .little (ItemCollector.read .little)
        [.addItem demoA, .removeItem 0, .clean] ACollector.empty =
      (.ok (), { _items := [], _removed_signs := [], _removed_count := 1 }) ∧
    saveCollection .little (Exhibit.write .little) true
        ({ _items := [], _removed_signs := [], _removed_count := 1 } : ACollector Exhibit) =
      .error .assertion ∧
    runOps .little (ItemCollector.read .little)
        [.addItem demoA, .removeItem 0, .clean, .addItem demoB] ACollector.empty =
      (.ok (), { _items := [demoB], _removed_signs := [false], _removed_count := 1 }) ∧
    saveCollection .little (Exhibit.write .little) true
        ({ _items := [demoB], _removed_signs := [false], _removed_count := 1 } :
          ACollector Exhibit) =
      .ok (true, objectBytes .little sizeof_size_t 0 ++ Exhibit.payload .little demoB) := by
  decide

/-! ## Validation while decoding a record -/

theorem ofBytesLE_lt (bs : List Byte) : ofBytesLE bs < 256 ^ bs.length := by
  induction bs with
  | nil => simp [ofBytesLE]
  | cons b bs ih =>
    have hb : b.val < 256 := b.isLt
    simp only [ofBytesLE, List.length_cons, pow_succ]
    omega

theorem objectValue_lt (ord : ByteOrder) (bs : List Byte) :
    objectValue ord bs < 256 ^ bs.length := by
  cases ord with
  | little => exact ofBytesLE_lt bs
  | big =>
    have h := ofBytesLE_lt bs.reverse
    rwa [List.length_reverse] at h

theorem readNumber_at (ord : ByteOrder) (bs rest : List Byte) :
    readNumber ord bs.length { bytes := bs ++ rest, good := true } =
      .ok (objectValue ord bs, { bytes := rest, good := true }) := by
  simp only [readNumber, IStream.read_append]

theorem readString_at (ord : ByteOrder) (p s rest : List Byte) (m : Nat)
    (hp : p.length = 2) (hs : s.length = objectValue ord p) (hm : objectValue ord p ≤ m) :
    readString ord { bytes := p ++ (s ++ rest), good := true } m =
      .ok (s.takeWhile (fun x => x != 0), { bytes := rest, good := true }) := by
  have ht : (p ++ (s ++ rest)).take 2 = p := by
    rw [← hp]; exact List.take_left _ _
  have hd : (p ++ (s ++ rest)).drop 2 = s ++ rest := by
    rw [← hp]; exact List.drop_left _ _
  have h := readString_of_le ord { bytes := p ++ (s ++ rest), good := true } m rfl
    (by simp only [ht]; exact hm) (by simp only [ht, List.length_append]; omega)
  rw [h]
  simp only [ht, hd]
  rw [← hs, List.take_left, ← hp, ← List.length_append, ← List.append_assoc, List.drop_left]

theorem readString_assert_at (ord : ByteOrder) (p rest : List Byte) (m : Nat)
    (hp : p.length = 2) (hm : m < objectValue ord p) :
    readString ord { bytes := p ++ rest, good := true } m = .error .assertion := by
  have h := readNumber_at ord p rest
  rw [hp] at h
  unfold readString
  rw [sizeof_uint16_t, h]
  simp only []
  rw [if_neg (by omega)]

theorem toSigned_range (u : Nat) (hu : u < 256 ^ 4) :
    (0 ≤ toSigned sizeof_int u ∧ toSigned sizeof_int u ≤ 2) ↔ u ≤ 2 := by
  unfold toSigned sizeof_int
  norm_num at hu ⊢
  split <;> omega

theorem Exhibit.new_ok_iff (name cur : Str) (mt n1 n2 : Int)
    (hn : name.length ≤ 50) (hc : cur.length ≤ 50) :
    (∃ e, Exhibit.new name mt cur n1 n2 = .ok e) ↔
      (0 ≤ mt ∧ mt ≤ 2) ∧ 0 ≤ n1 ∧ 0 ≤ n2 := by
  unfold Exhibit.new
  simp only [Exhibit.invariant, MAX_STRING_LENGTH, hn, hc, decide_True, Bool.true_and,
    Bool.and_true]
  by_cases h : (0 ≤ mt ∧ mt ≤ 2) ∧ 0 ≤ n1 ∧ 0 ≤ n2
  · obtain ⟨⟨a, b⟩, c, d⟩ := h
    simp [a, b, c, d]
  · simp only [h, iff_false]
    rintro ⟨e, he⟩
    split at he
    · rename_i hi
      simp only [Bool.and_eq_true, decide_eq_true_eq] at hi
      exact h ⟨⟨hi.1.1.1, hi.1.1.2⟩, hi.1.2, hi.2⟩
    · cases he

theorem Exhibit.new_error (name cur : Str) (mt n1 n2 : Int) :
    (∃ e, Exhibit.new name mt cur n1 n2 = .ok e ∧ e.invariant = true) ∨
      Exhibit.new name mt cur n1 n2 = .error .assertion := by
  unfold Exhibit.new
  simp only
  split
  · rename_i h
    exact Or.inl ⟨_, rfl, h⟩
  · exact Or.inr rfl

theorem ItemCollector.read_first_assert (ord : ByteOrder) (p1 rest : List Byte)
    (hp1 : p1.length = 2) (h1 : 50 < objectValue ord p1) :
    ItemCollector.read ord { bytes := p1 ++ rest, good := true } = .error .assertion := by
  unfold ItemCollector.read
  rw [MAX_STRING_LENGTH, readString_assert_at ord p1 rest 50 hp1 h1]

theorem ItemCollector.read_second_assert (ord : ByteOrder) (p1 s1 m p2 rest : List Byte)
    (hp1 : p1.length = 2) (hs1 : s1.length = objectValue ord p1) (hm : m.length = 4)
    (hp2 : p2.length = 2) (h1 : objectValue ord p1 ≤ 50) (h2 : 50 < objectValue ord p2) :
    ItemCollector.read ord { bytes := p1 ++ (s1 ++ (m ++ (p2 ++ rest))), good := true } =
      .error .assertion := by
  have hnum := readNumber_at ord m (p2 ++ rest)
  rw [hm] at hnum
  unfold ItemCollector.read
  rw [MAX_STRING_LENGTH, readString_at ord p1 s1 _ 50 hp1 hs1 h1]
  simp only [sizeof_int]
  rw [hnum]
  simp only []
  rw [readString_assert_at ord p2 rest 50 hp2 h2]

theorem ItemCollector.read_at (ord : ByteOrder) (p1 s1 m p2 s2 c1 c2 rest : List Byte)
    (hp1 : p1.length = 2) (hs1 : s1.length = objectValue ord p1) (hm : m.length = 4)
    (hp2 : p2.length = 2) (hs2 : s2.length = objectValue ord p2)
    (hc1 : c1.length = 4) (hc2 : c2.length = 4)
    (h1 : objectValue ord p1 ≤ 50) (h2 : objectValue ord p2 ≤ 50) :
    ItemCollector.read ord
        { bytes := p1 ++ (s1 ++ (m ++ (p2 ++ (s2 ++ (c1 ++ (c2 ++ rest)))))), good := true } =
      match Exhibit.new (s1.takeWhile (fun x => x != 0)) (toSigned sizeof_int (objectValue ord m))
          (s2.takeWhile (fun x => x != 0)) (toSigned sizeof_int (objectValue ord c1))
          (toSigned sizeof_int (objectValue ord c2)) with
      | .error f => .error f
      | .ok e => .ok (e, { bytes := rest, good := true }) := by
  have hnum := readNumber_at ord m (p2 ++ (s2 ++ (c1 ++ (c2 ++ rest))))
  rw [hm] at hnum
  have hnum1 := readNumber_at ord c1 (c2 ++ rest)
  rw [hc1] at hnum1
  have hnum2 := readNumber_at ord c2 rest
  rw [hc2] at hnum2
  unfold ItemCollector.read
  rw [MAX_STRING_LENGTH, readString_at ord p1 s1 _ 50 hp1 hs1 h1]
  simp only [sizeof_int]
  rw [hnum]
  simp only []
  rw [readString_at ord p2 s2 _ 50 hp2 hs2 h2]
  simp only []
  rw [hnum1]
  simp only []
  rw [hnum2]

/-- C20: on a stream without error bit that holds a full record payload (two length
bytes and as many content bytes as they announce, four bytes, again a length-prefixed
string, then twice four bytes), `ItemCollector.read` returns a record exactly when both
lengths are at most 50, the category value is 0, 1 or 2 and both counts are non-negative
as signed numbers; otherwise it stops on an assertion; and a record it returns satisfies
the `Exhibit` invariant, the stream being left right after the payload. -/
theorem ItemCollector.read_validation (ord : ByteOrder)
    (p1 s1 m p2 s2 c1 c2 rest : List Byte)
    (hp1 : p1.length = 2) (hs1 : s1.length = objectValue ord p1) (hm : m.length = 4)
    (hp2 : p2.length = 2) (hs2 : s2.length = objectValue ord p2)
    (hc1 : c1.length = 4) (hc2 : c2.length = 4) :
    ((∃ e is1, ItemCollector.read ord
        { bytes := p1 ++ (s1 ++ (m ++ (p2 ++ (s2 ++ (c1 ++ (c2 ++ rest)))))), good := true } =
          .ok (e, is1)) ↔
      (objectValue ord p1 ≤ 50 ∧ objectValue ord p2 ≤ 50 ∧ objectValue ord m ≤ 2 ∧
        0 ≤ toSigned sizeof_int (objectValue ord c1) ∧
        0 ≤ toSigned sizeof_int (objectValue ord c2))) ∧
    ((∃ e is1, ItemCollector.read ord
        { bytes := p1 ++ (s1 ++ (m ++ (p2 ++ (s2 ++ (c1 ++ (c2 ++ rest)))))), good := true } =
          .ok (e, is1)) ∨
      ItemCollector.read ord
        { bytes := p1 ++ (s1 ++ (m ++ (p2 ++ (s2 ++ (c1 ++ (c2 ++ rest)))))), good := true } =
          .error .assertion) ∧
    (∀ e is1, ItemCollector.read ord
        { bytes := p1 ++ (s1 ++ (m ++ (p2 ++ (s2 ++ (c1 ++ (c2 ++ rest)))))), good := true } =
          .ok (e, is1) →
      e.invariant = true ∧ is1 = { bytes := rest, good := true }) := by
  by_cases h1 : objectValue ord p1 ≤ 50
  · by_cases h2 : objectValue ord p2 ≤ 50
    · rw [ItemCollector.read_at ord p1 s1 m p2 s2 c1 c2 rest hp1 hs1 hm hp2 hs2 hc1 hc2 h1 h2]
      have hn1 : (s1.takeWhile (fun x => x != 0)).length ≤ 50 :=
        le_trans (List.takeWhile_sublist _).length_le (by omega)
      have hn2 : (s2.takeWhile (fun x => x != 0)).length ≤ 50 :=
        le_trans (List.takeWhile_sublist _).length_le (by omega)
      have hiff := Exhibit.new_ok_iff (s1.takeWhile (fun x => x != 0))
        (s2.takeWhile (fun x => x != 0)) (toSigned sizeof_int (objectValue ord m))
        (toSigned sizeof_int (objectValue ord c1)) (toSigned sizeof_int (objectValue ord c2))
        hn1 hn2
      have hmt := toSigned_range (objectValue ord m) (by
        have := objectValue_lt ord m
        rwa [hm] at this)
      rw [hmt] at hiff
      rcases Exhibit.new_error (s1.takeWhile (fun x => x != 0))
        (s2.takeWhile (fun x => x != 0)) (toSigned sizeof_int (objectValue ord m))
        (toSigned sizeof_int (objectValue ord c1))
        (toSigned sizeof_int (objectValue ord c2)) with ⟨e0, he0, hinv0⟩ | herr
      · have hcond := hiff.mp ⟨e0, he0⟩
        rw [he0]
        refine ⟨⟨fun _ => ⟨h1, h2, hcond.1, hcond.2.1, hcond.2.2⟩, fun _ => ⟨e0, _, rfl⟩⟩,
          Or.inl ⟨e0, _, rfl⟩, ?_⟩
        intro e is1 h
        simp only [Except.ok.injEq, Prod.mk.injEq] at h
        exact ⟨h.1 ▸ hinv0, h.2.symm⟩
      · have hno : ¬ (objectValue ord m ≤ 2 ∧
            0 ≤ toSigned sizeof_int (objectValue ord c1) ∧
            0 ≤ toSigned sizeof_int (objectValue ord c2)) := by
          intro hc
          obtain ⟨e, he⟩ := hiff.mpr hc
          rw [herr] at he
          cases he
        rw [herr]
        refine ⟨⟨?_, fun hc => absurd ⟨hc.2.2.1, hc.2.2.2.1, hc.2.2.2.2⟩ hno⟩, Or.inr rfl, ?_⟩
        · rintro ⟨e, is1, h⟩
          cases h
        · intro e is1 h
          cases h
    · rw [ItemCollector.read_second_assert ord p1 s1 m p2 _ hp1 hs1 hm hp2 h1 (by omega)]
      refine ⟨⟨?_, fun hc => absurd hc.2.1 h2⟩, Or.inr rfl, ?_⟩
      · rintro ⟨e, is1, h⟩
        cases h
      · intro e is1 h
        cases h
  · rw [ItemCollector.read_first_assert ord p1 _ hp1 (by omega)]
    refine ⟨⟨?_, fun hc => absurd hc.1 h1⟩, Or.inr rfl, ?_⟩
    · rintro ⟨e, is1, h⟩
      cases h
    · intro e is1 h
      cases h

/-- Witness of C20: the payload of the sample record `A` on a little-endian host is
accepted and gives back `A`. -/
theorem ItemCollector.read_validation_witness :
    (objectValue .little [1, 0] ≤ 50 ∧ objectValue .little [2, 0] ≤ 50 ∧
      objectValue .little [0, 0, 0, 0] ≤ 2 ∧
      0 ≤ toSigned sizeof_int (objectValue .little [3, 0, 0, 0]) ∧
      0 ≤ toSigned sizeof_int (objectValue .little [4, 0, 0, 0])) ∧
    (∃ e is1, ItemCollector.read .little
        { bytes := [1, 0] ++ ([65] ++ ([0, 0, 0, 0] ++ ([2, 0] ++ ([66, 67] ++
            ([3, 0, 0, 0] ++ ([4, 0, 0, 0] ++ [])))))), good := true } = .ok (e, is1)) ∧
    ItemCollector.read .little { bytes := Exhibit.payload .little demoA, good := true } =
      .ok (demoA, { bytes := [], good := true }) :=
  ⟨by decide,
    (ItemCollector.read_validation .little [1, 0] [65] [0, 0, 0, 0] [2, 0] [66, 67]
      [3, 0, 0, 0] [4, 0, 0, 0] [] rfl rfl rfl rfl rfl rfl rfl).1.mpr (by decide),
    by decide⟩

end L3
